import Mathlib

/-!
Shallow embedding of the cache simulator `csim.c` (LRU set-associative
cache replaying Valgrind traces), together with proofs of functional
properties of its core: address decomposition, hit/miss/eviction
transition, and trace-level counting invariants.

Machine integers are modelled as `Nat` with explicit `% 2 ^ 64` where the
C code relies on 64-bit wraparound (the set-index shift); `int` counters
(`hits`, `misses`, `evictions`, `access_count`) never overflow in the
properties considered and are modelled as `Nat`.  The command-line `s`,
`E`, `b` are C `int`s and are modelled as `Int` where their sign matters
(the configuration check in `main`), and as `Nat` inside the simulation
proper, which the program only reaches with positive values.
-/

/-- One cache line: `set_line` from csim.c (the unused `block` pointer is
omitted; it never carries data). -/
structure SetLine where
  valid : Bool
  access_count : Nat
  tag : Nat
deriving DecidableEq

/-- A set is an array of `E` lines (`cache_set`). -/
abbrev CacheSet := List SetLine

/-- A cache is an array of `S` sets (`cache`). -/
abbrev CacheType := List CacheSet

/-- `cache_param_t`: geometry plus the running counters.  `S` and `B` are
derived and never read by the simulation, so they are not stored. -/
structure CacheParam where
  s : Nat
  b : Nat
  E : Nat
  hits : Nat
  misses : Nat
  evictions : Nat
deriving DecidableEq

/-- `build_cache`: every line starts `valid = 0`, `access_count = 0`,
`tag = 0`. -/
def build_cache (num_sets num_lines : Nat) : CacheType :=
  List.replicate num_sets (List.replicate num_lines ⟨false, 0, 0⟩)

/-- Loop of `get_empty_line`: return the index of the first line with
`valid == 0`; after the loop the C function returns 0 (that return is
never taken on the path where the function is called). -/
def get_empty_line_aux : List SetLine → Nat → Nat
  | [], _ => 0
  | line :: rest, i => if line.valid = false then i else get_empty_line_aux rest (i + 1)

/-- `get_empty_line`. -/
def get_empty_line (set : CacheSet) : Nat :=
  get_empty_line_aux set 0

/-- Loop body of `get_LRU`: scan from `idx` keeping the first-seen minimum
`access_count` (index `minIdx`, value `minUsed`) and the maximum `maxUsed`. -/
def get_LRU_aux : List SetLine → Nat → Nat → Nat → Nat → Nat × Nat × Nat
  | [], _, minIdx, minUsed, maxUsed => (minIdx, minUsed, maxUsed)
  | line :: rest, idx, minIdx, minUsed, maxUsed =>
      let (minIdx', minUsed') :=
        if minUsed > line.access_count then (idx, line.access_count)
        else (minIdx, minUsed)
      let maxUsed' :=
        if maxUsed < line.access_count then line.access_count else maxUsed
      get_LRU_aux rest (idx + 1) minIdx' minUsed' maxUsed'

/-- `get_LRU`: returns `(min_used_index, used_lines[0], used_lines[1])`,
i.e. the index of the LRU line, the minimum and the maximum
`access_count` of the set.  The C code reads `lines[0]` unconditionally,
so a set is never empty at a call site; the `[]` case is a dead default. -/
def get_LRU (set : CacheSet) : Nat × Nat × Nat :=
  match set with
  | [] => (0, 0, 0)
  | line :: rest => get_LRU_aux rest 1 0 line.access_count line.access_count

/-- The hit-scan loop of `simulate_cache` (lines 228-245): returns the
updated lines (each valid line whose tag matches gets `access_count + 1`
written back), the number of `par.hits++` executed, and the final value of
the `cache_full` flag (which ends 1 iff every line is valid). -/
def hit_scan : CacheSet → Nat → CacheSet × Nat × Bool
  | [], _ => ([], 0, true)
  | line :: rest, input_tag =>
      let (rest', h, full) := hit_scan rest input_tag
      if line.valid then
        if line.tag = input_tag then
          ({ line with access_count := line.access_count + 1 } :: rest', h + 1, full)
        else
          (line :: rest', h, full)
      else
        (line :: rest', h, false)

/-- The default used to read a line at an index (`List.getD`); all reads
in the proofs are at in-bounds indices, where the default is irrelevant. -/
def defaultLine : SetLine := ⟨false, 0, 0⟩

/-- Overwrite the fields of the line at index `i`, as the C code does with
`query_set.lines[i].field = ...`. -/
def updateLine (set : CacheSet) (i : Nat) (f : SetLine → SetLine) : CacheSet :=
  set.set i (f (set.getD i defaultLine))

/-- Body of `simulate_cache` acting on the selected set (lines 228-280):
hit scan, then on a miss either fill the first empty line or evict the
LRU line, writing `max access_count + 1` as the new line's recency. -/
def simulate_set (query_set : CacheSet) (par : CacheParam) (input_tag : Nat) :
    CacheSet × CacheParam :=
  let (set1, h, cache_full) := hit_scan query_set input_tag
  if h = 0 then
    -- prev_hits == par.hits: cache miss
    let par1 := { par with misses := par.misses + 1 }
    let used := get_LRU set1
    if cache_full then
      (updateLine set1 used.1
         (fun l => { l with tag := input_tag, access_count := used.2.2 + 1 }),
       { par1 with evictions := par1.evictions + 1 })
    else
      (updateLine set1 (get_empty_line set1)
         (fun l => { l with valid := true, tag := input_tag,
                            access_count := used.2.2 + 1 }),
       par1)
  else
    (set1, { par with hits := par.hits + h })

/-- Set-index computation of `simulate_cache` (lines 219-222): shift the
address left by `tag_size` in a 64-bit register, then right by
`tag_size + b`. -/
def decompose_setIndex (s b address : Nat) : Nat :=
  let tag_size := 64 - (s + b)
  let temp := (address * 2 ^ tag_size) % 2 ^ 64
  temp / 2 ^ (tag_size + b)

/-- Tag computation of `simulate_cache` (line 224): `address >> (s + b)`. -/
def decompose_tag (s b address : Nat) : Nat :=
  address / 2 ^ (s + b)

/-- `simulate_cache`: one access.  The C function mutates the cache in
place and returns the updated parameter block; here both are returned. -/
def simulate_cache (this_cache : CacheType) (par : CacheParam) (address : Nat) :
    CacheType × CacheParam :=
  let setIndex := decompose_setIndex par.s par.b address
  let input_tag := decompose_tag par.s par.b address
  let query_set := this_cache.getD setIndex []
  let (set', par') := simulate_set query_set par input_tag
  (this_cache.set setIndex set', par')

/-- A parsed trace record: `cmd` and `address` (the `size` field is read
but never used by the simulation). -/
inductive AccessKind where
  | instr | load | store | modify
deriving DecidableEq

structure AccessRecord where
  kind : AccessKind
  address : Nat
deriving DecidableEq

/-- The dispatch in `main`'s trace loop (lines 353-369): `I` is skipped,
`L` and `S` are one access, `M` is two accesses at the same address. -/
def run_record (st : CacheType × CacheParam) (r : AccessRecord) :
    CacheType × CacheParam :=
  match r.kind with
  | .instr => st
  | .load => simulate_cache st.1 st.2 r.address
  | .store => simulate_cache st.1 st.2 r.address
  | .modify =>
      let st1 := simulate_cache st.1 st.2 r.address
      simulate_cache st1.1 st1.2 r.address

/-- The whole trace loop of `main`. -/
def run_trace (c : CacheType) (par : CacheParam) (trace : List AccessRecord) :
    CacheType × CacheParam :=
  trace.foldl run_record (c, par)

/-- The configuration check of `main` (line 334):
`par.s == 0 || par.E == 0 || par.b == 0 || trace_file == NULL`.  `s`, `E`,
`b` are C `int`s, hence `Int` here; a `true` result prints usage and
exits before `build_cache` runs. -/
def config_missing (s E b : Int) (trace_file_null : Bool) : Bool :=
  s == 0 || E == 0 || b == 0 || trace_file_null

/-- Number of engine calls one record causes: `I` none, `L`/`S` one,
`M` two. -/
def recordCost (r : AccessRecord) : Nat :=
  match r.kind with
  | .instr => 0
  | .load => 1
  | .store => 1
  | .modify => 2

/-- Number of cache accesses a trace issues. -/
def accessCount : List AccessRecord → Nat
  | [] => 0
  | r :: rest => recordCost r + accessCount rest

/-- From the spec's words (§4.1): the block offset is the low `b` bits of
the address.  The C code never computes it (it is unused for hit/miss
decisions), so this definition follows the spec for comparison. -/
def spec_offset (b address : Nat) : Nat :=
  address % 2 ^ b

/-- `num_sets` as computed by `main` (line 341): `pow(2.0, par.s)`
truncated to an integer, which is `2^s` for `s ≥ 0` and `0` for negative
`s` (the fraction truncates to zero). -/
def num_sets_of (s : Int) : Nat :=
  if 0 ≤ s then 2 ^ s.toNat else 0

/-- The prefix of `main` around the configuration check: the check at
line 334 runs first and exits on failure; only afterwards (line 347) is
the cache built and the trace loop entered.  `none` models the early
exit; `some` carries the initial cache and parameter block that the
simulation then starts from.  (For negative `E` the C `malloc` size is
garbage; `Int.toNat`, which is 0 on negatives, stands in for it — the
properties proved about this function only concern when it is `none`.) -/
def main_setup (s E b : Int) (trace_file_null : Bool) :
    Option (CacheType × CacheParam) :=
  if config_missing s E b trace_file_null then none
  else some (build_cache (num_sets_of s) E.toNat,
             { s := s.toNat, b := b.toNat, E := E.toNat,
               hits := 0, misses := 0, evictions := 0 })

/-- Lines holding the tags `ts` in order, filled starting at recency
`k + 1`: the state a set reaches after loading `ts` (pairwise distinct)
into consecutive lines of an initially empty set. -/
def filledLines : List Nat → Nat → CacheSet
  | [], _ => []
  | t :: ts, k => ⟨true, k + 1, t⟩ :: filledLines ts (k + 1)

/-- A set of `E` lines after the tags `ts` have been loaded in order into
an initially empty set: the first `ts.length` lines hold them, the rest
are still empty. -/
def fillState (ts : List Nat) (E : Nat) : CacheSet :=
  filledLines ts 0 ++ List.replicate (E - ts.length) defaultLine

/-- The hit condition of the scan: a valid line holding `input_tag`. -/
def isMatch (input_tag : Nat) (l : SetLine) : Bool :=
  l.valid && l.tag == input_tag

/-- The write-back a hit performs on its line. -/
def bumpLine (l : SetLine) : SetLine :=
  { l with access_count := l.access_count + 1 }

/-- From the spec's words: the maximum recency currently present among the
set's lines. -/
def spec_maxRecency (set : CacheSet) : Nat :=
  set.foldl (fun m l => max m l.access_count) 0

/-- From the spec's words: the minimum recency among the set's lines
(0 for an empty set, which never occurs with `E ≥ 1`). -/
def spec_minRecency (set : CacheSet) : Nat :=
  match set with
  | [] => 0
  | l :: rest => rest.foldl (fun m x => min m x.access_count) l.access_count

/-- From the spec's words: the victim on a full miss — the lowest index
attaining the minimum recency. -/
def spec_victimIdx (set : CacheSet) : Nat :=
  set.findIdx (fun l => l.access_count == spec_minRecency set)

/-- The spec's Set invariant: no two distinct valid lines share a tag. -/
def noDupSet (set : CacheSet) : Prop :=
  ∀ i j, i < j → j < set.length →
    (set.getD i defaultLine).valid = true → (set.getD j defaultLine).valid = true →
    (set.getD i defaultLine).tag ≠ (set.getD j defaultLine).tag

/-- The invariant over the whole cache. -/
def noDupCache (c : CacheType) : Prop := ∀ set ∈ c, noDupSet set

/-! ### Characterisation of the hit scan -/

lemma hit_scan_cons (l : SetLine) (rest : CacheSet) (tag : Nat) :
    hit_scan (l :: rest) tag =
      if l.valid then
        if l.tag = tag then
          (bumpLine l :: (hit_scan rest tag).1,
           (hit_scan rest tag).2.1 + 1, (hit_scan rest tag).2.2)
        else
          (l :: (hit_scan rest tag).1, (hit_scan rest tag).2.1, (hit_scan rest tag).2.2)
      else
        (l :: (hit_scan rest tag).1, (hit_scan rest tag).2.1, false) := by
  cases hres : hit_scan rest tag with
  | mk a bc =>
    cases bc with
    | mk b c => simp [hit_scan, hres, bumpLine]

lemma hit_scan_fst (set : CacheSet) (tag : Nat) :
    (hit_scan set tag).1 = set.map (fun l => if isMatch tag l then bumpLine l else l) := by
  induction set with
  | nil => rfl
  | cons l rest ih =>
    rw [hit_scan_cons, List.map_cons, ← ih]
    by_cases hv : l.valid <;> by_cases ht : l.tag = tag <;>
      simp [isMatch, hv, ht]

lemma hit_scan_count (set : CacheSet) (tag : Nat) :
    (hit_scan set tag).2.1 = (set.filter (isMatch tag)).length := by
  induction set with
  | nil => rfl
  | cons l rest ih =>
    rw [hit_scan_cons]
    by_cases hv : l.valid <;> by_cases ht : l.tag = tag <;>
      simp [isMatch, hv, ht, ih]

lemma hit_scan_full (set : CacheSet) (tag : Nat) :
    (hit_scan set tag).2.2 = set.all (fun l => l.valid) := by
  induction set with
  | nil => rfl
  | cons l rest ih =>
    rw [hit_scan_cons]
    by_cases hv : l.valid <;> by_cases ht : l.tag = tag <;>
      simp [hv, ht, ih]

/-! ### Characterisation of `get_empty_line` -/

lemma get_empty_line_aux_spec (set : CacheSet) (i : Nat)
    (h : ∃ l ∈ set, l.valid = false) :
    ∃ k, k < set.length ∧ get_empty_line_aux set i = i + k ∧
      (set.getD k defaultLine).valid = false ∧
      ∀ m < k, (set.getD m defaultLine).valid = true := by
  induction set generalizing i with
  | nil => simp at h
  | cons l rest ih =>
    by_cases hv : l.valid
    · obtain ⟨l', hl', hval⟩ := h
      rcases List.mem_cons.1 hl' with rfl | hmem
      · simp [hv] at hval
      · obtain ⟨k, hk, heq, hinv, hprev⟩ := ih (i + 1) ⟨l', hmem, hval⟩
        refine ⟨k + 1, by simpa using hk, ?_, by simpa using hinv, ?_⟩
        · simp [get_empty_line_aux, hv, heq]
          omega
        · intro m hm
          cases m with
          | zero => simpa using hv
          | succ m' => simpa using hprev m' (by omega)
    · refine ⟨0, by simp, ?_, by simpa using hv, by omega⟩
      simp [get_empty_line_aux, hv]

lemma get_empty_line_spec (set : CacheSet)
    (h : ∃ l ∈ set, l.valid = false) :
    get_empty_line set < set.length ∧
      (set.getD (get_empty_line set) defaultLine).valid = false ∧
      ∀ m < get_empty_line set, (set.getD m defaultLine).valid = true := by
  obtain ⟨k, hk, heq, hinv, hprev⟩ := get_empty_line_aux_spec set 0 h
  simp only [get_empty_line, heq, Nat.zero_add]
  exact ⟨hk, hinv, hprev⟩

/-! ### Characterisation of `get_LRU` -/

lemma foldl_min_le_seed (rest : List SetLine) (seed : Nat) :
    rest.foldl (fun m l => min m l.access_count) seed ≤ seed := by
  induction rest generalizing seed with
  | nil => simp
  | cons a rest ih =>
    simp only [List.foldl_cons]
    exact le_trans (ih _) (Nat.min_le_left _ _)

lemma foldl_min_le_mem (rest : List SetLine) (seed : Nat) (l : SetLine) (hl : l ∈ rest) :
    rest.foldl (fun m x => min m x.access_count) seed ≤ l.access_count := by
  induction rest generalizing seed with
  | nil => simp at hl
  | cons a rest ih =>
    simp only [List.foldl_cons]
    rcases List.mem_cons.1 hl with rfl | h
    · exact le_trans (foldl_min_le_seed _ _) (Nat.min_le_right _ _)
    · exact ih _ h

lemma foldl_min_eq_seed (rest : List SetLine) (seed : Nat)
    (h : ∀ l ∈ rest, seed ≤ l.access_count) :
    rest.foldl (fun m x => min m x.access_count) seed = seed := by
  induction rest generalizing seed with
  | nil => rfl
  | cons a rest ih =>
    simp only [List.foldl_cons]
    rw [Nat.min_eq_left (h a (List.mem_cons_self a rest))]
    exact ih _ (fun l hl => h l (List.mem_cons_of_mem _ hl))

lemma foldl_min_attained (rest : List SetLine) (seed : Nat) :
    rest.foldl (fun m x => min m x.access_count) seed = seed ∨
      ∃ l ∈ rest, rest.foldl (fun m x => min m x.access_count) seed = l.access_count := by
  induction rest generalizing seed with
  | nil => exact Or.inl rfl
  | cons a rest ih =>
    simp only [List.foldl_cons]
    rcases Nat.le_total seed a.access_count with hle | hle
    · rw [Nat.min_eq_left hle]
      rcases ih seed with h | ⟨l, hl, he⟩
      · exact Or.inl h
      · exact Or.inr ⟨l, List.mem_cons_of_mem _ hl, he⟩
    · rw [Nat.min_eq_right hle]
      rcases ih a.access_count with h | ⟨l, hl, he⟩
      · exact Or.inr ⟨a, List.mem_cons_self a rest, h⟩
      · exact Or.inr ⟨l, List.mem_cons_of_mem _ hl, he⟩

lemma get_LRU_aux_min (rest : List SetLine) (idx minIdx minUsed maxUsed : Nat) :
    (get_LRU_aux rest idx minIdx minUsed maxUsed).2.1 =
      rest.foldl (fun m l => min m l.access_count) minUsed := by
  induction rest generalizing idx minIdx minUsed maxUsed with
  | nil => rfl
  | cons a rest ih =>
    simp only [get_LRU_aux, List.foldl_cons]
    by_cases h1 : minUsed > a.access_count
    · rw [Nat.min_eq_right (Nat.le_of_lt h1)]
      simp only [h1, if_pos]
      exact ih _ _ _ _
    · rw [Nat.min_eq_left (Nat.not_lt.1 h1)]
      simp only [h1, if_neg, not_false_iff]
      exact ih _ _ _ _

lemma get_LRU_aux_max (rest : List SetLine) (idx minIdx minUsed maxUsed : Nat) :
    (get_LRU_aux rest idx minIdx minUsed maxUsed).2.2 =
      rest.foldl (fun m l => max m l.access_count) maxUsed := by
  induction rest generalizing idx minIdx minUsed maxUsed with
  | nil => rfl
  | cons a rest ih =>
    simp only [get_LRU_aux, List.foldl_cons]
    by_cases h2 : maxUsed < a.access_count
    · rw [Nat.max_eq_right (Nat.le_of_lt h2)]
      by_cases h1 : minUsed > a.access_count <;> simp only [h1, h2, if_pos, if_neg, not_false_iff] <;>
        exact ih _ _ _ _
    · rw [Nat.max_eq_left (Nat.not_lt.1 h2)]
      by_cases h1 : minUsed > a.access_count <;> simp only [h1, h2, if_pos, if_neg, not_false_iff] <;>
        exact ih _ _ _ _

lemma get_LRU_aux_idx (rest : List SetLine) (idx minIdx minUsed maxUsed : Nat) :
    (get_LRU_aux rest idx minIdx minUsed maxUsed).1 =
      if ∀ l ∈ rest, minUsed ≤ l.access_count then minIdx
      else idx + rest.findIdx
        (fun l => l.access_count == rest.foldl (fun m x => min m x.access_count) minUsed) := by
  induction rest generalizing idx minIdx minUsed maxUsed with
  | nil => simp [get_LRU_aux]
  | cons a rest ih =>
    simp only [get_LRU_aux]
    by_cases h1 : minUsed > a.access_count
    · simp only [h1, if_pos]
      rw [ih]
      have hM : (a :: rest).foldl (fun m x => min m x.access_count) minUsed =
          rest.foldl (fun m x => min m x.access_count) a.access_count := by
        simp only [List.foldl_cons]
        rw [Nat.min_eq_right (Nat.le_of_lt h1)]
      have hcond : ¬ (∀ l ∈ a :: rest, minUsed ≤ l.access_count) := by
        intro hall
        exact absurd (hall a (List.mem_cons_self a rest)) (by omega)
      rw [if_neg hcond]
      by_cases h2 : ∀ l ∈ rest, a.access_count ≤ l.access_count
      · rw [if_pos h2, hM, List.findIdx_cons]
        rw [foldl_min_eq_seed rest a.access_count h2]
        simp
      · rw [if_neg h2, hM, List.findIdx_cons]
        push_neg at h2
        obtain ⟨l, hl, hlt⟩ := h2
        have hMlt : rest.foldl (fun m x => min m x.access_count) a.access_count < a.access_count :=
          Nat.lt_of_le_of_lt (foldl_min_le_mem rest a.access_count l hl) hlt
        have : (a.access_count == rest.foldl (fun m x => min m x.access_count) a.access_count) =
            false := by
          simp only [beq_eq_false_iff_ne, ne_eq]
          omega
        rw [this]
        simp only [cond_false]
        omega
    · simp only [h1, if_neg, not_false_iff]
      rw [ih]
      have hle : minUsed ≤ a.access_count := Nat.not_lt.1 h1
      have hM : (a :: rest).foldl (fun m x => min m x.access_count) minUsed =
          rest.foldl (fun m x => min m x.access_count) minUsed := by
        simp only [List.foldl_cons]
        rw [Nat.min_eq_left hle]
      by_cases h2 : ∀ l ∈ rest, minUsed ≤ l.access_count
      · rw [if_pos h2, if_pos]
        intro l hl
        rcases List.mem_cons.1 hl with rfl | hmem
        · exact hle
        · exact h2 l hmem
      · rw [if_neg h2, if_neg, hM, List.findIdx_cons]
        · push_neg at h2
          obtain ⟨l, hl, hlt⟩ := h2
          have hMlt : rest.foldl (fun m x => min m x.access_count) minUsed < minUsed :=
            Nat.lt_of_le_of_lt (foldl_min_le_mem rest minUsed l hl) hlt
          have : (a.access_count == rest.foldl (fun m x => min m x.access_count) minUsed) =
              false := by
            simp only [beq_eq_false_iff_ne, ne_eq]
            omega
          rw [this]
          simp only [cond_false]
          omega
        · intro hall
          push_neg at h2
          obtain ⟨l, hl, hlt⟩ := h2
          exact absurd (hall l (List.mem_cons_of_mem _ hl)) (by omega)

lemma get_LRU_eq (set : CacheSet) :
    get_LRU set = (spec_victimIdx set, spec_minRecency set, spec_maxRecency set) := by
  cases set with
  | nil => rfl
  | cons a rest =>
    have hmin : (get_LRU (a :: rest)).2.1 = spec_minRecency (a :: rest) := by
      show (get_LRU_aux rest 1 0 a.access_count a.access_count).2.1 = _
      rw [get_LRU_aux_min]
      rfl
    have hmax : (get_LRU (a :: rest)).2.2 = spec_maxRecency (a :: rest) := by
      show (get_LRU_aux rest 1 0 a.access_count a.access_count).2.2 = _
      rw [get_LRU_aux_max]
      show _ = (a :: rest).foldl (fun m l => max m l.access_count) 0
      simp only [List.foldl_cons, Nat.zero_max]
    have hidx : (get_LRU (a :: rest)).1 = spec_victimIdx (a :: rest) := by
      show (get_LRU_aux rest 1 0 a.access_count a.access_count).1 = _
      rw [get_LRU_aux_idx]
      unfold spec_victimIdx
      have hM : spec_minRecency (a :: rest) =
          rest.foldl (fun m x => min m x.access_count) a.access_count := rfl
      by_cases h2 : ∀ l ∈ rest, a.access_count ≤ l.access_count
      · rw [if_pos h2, List.findIdx_cons, hM, foldl_min_eq_seed rest a.access_count h2]
        simp
      · rw [if_neg h2, List.findIdx_cons, hM]
        push_neg at h2
        obtain ⟨l, hl, hlt⟩ := h2
        have hMlt : rest.foldl (fun m x => min m x.access_count) a.access_count < a.access_count :=
          Nat.lt_of_le_of_lt (foldl_min_le_mem rest a.access_count l hl) hlt
        have : (a.access_count == rest.foldl (fun m x => min m x.access_count) a.access_count) =
            false := by
          simp only [beq_eq_false_iff_ne, ne_eq]
          omega
        rw [this]
        simp only [cond_false]
        omega
    calc get_LRU (a :: rest)
        = ((get_LRU (a :: rest)).1, (get_LRU (a :: rest)).2.1, (get_LRU (a :: rest)).2.2) := rfl
      _ = (spec_victimIdx (a :: rest), spec_minRecency (a :: rest), spec_maxRecency (a :: rest)) := by
          rw [hmin, hmax, hidx]

/-! ### Facts about the spec-side recency functions -/

lemma spec_minRecency_le (set : CacheSet) (l : SetLine) (hl : l ∈ set) :
    spec_minRecency set ≤ l.access_count := by
  cases set with
  | nil => simp at hl
  | cons a rest =>
    rcases List.mem_cons.1 hl with rfl | h
    · exact foldl_min_le_seed rest l.access_count
    · exact foldl_min_le_mem rest a.access_count l h

lemma spec_minRecency_attained (set : CacheSet) (h : set ≠ []) :
    ∃ l ∈ set, l.access_count = spec_minRecency set := by
  cases set with
  | nil => exact absurd rfl h
  | cons a rest =>
    rcases foldl_min_attained rest a.access_count with he | ⟨l, hl, he⟩
    · exact ⟨a, List.mem_cons_self a rest, he.symm⟩
    · exact ⟨l, List.mem_cons_of_mem _ hl, he.symm⟩

lemma foldl_max_ge_seed (rest : List SetLine) (seed : Nat) :
    seed ≤ rest.foldl (fun m l => max m l.access_count) seed := by
  induction rest generalizing seed with
  | nil => exact Nat.le_refl _
  | cons a rest ih =>
    simp only [List.foldl_cons]
    exact le_trans (Nat.le_max_left _ _) (ih _)

lemma foldl_max_ge_mem (rest : List SetLine) (seed : Nat) (l : SetLine) (hl : l ∈ rest) :
    l.access_count ≤ rest.foldl (fun m x => max m x.access_count) seed := by
  induction rest generalizing seed with
  | nil => simp at hl
  | cons a rest ih =>
    simp only [List.foldl_cons]
    rcases List.mem_cons.1 hl with rfl | h
    · exact le_trans (Nat.le_max_right _ _) (foldl_max_ge_seed _ _)
    · exact ih _ h

lemma spec_maxRecency_ge (set : CacheSet) (l : SetLine) (hl : l ∈ set) :
    l.access_count ≤ spec_maxRecency set :=
  foldl_max_ge_mem set 0 l hl

lemma getD_eq_getElem (l : List SetLine) (n : Nat) (d : SetLine) (h : n < l.length) :
    l.getD n d = l[n] := by
  rw [List.getD_eq_getElem?_getD, List.getElem?_eq_getElem h]
  rfl

lemma spec_victimIdx_lt (set : CacheSet) (h : set ≠ []) :
    spec_victimIdx set < set.length := by
  apply List.findIdx_lt_length_of_exists
  obtain ⟨l, hl, he⟩ := spec_minRecency_attained set h
  exact ⟨l, hl, by simp [he]⟩

lemma spec_victimIdx_ac (set : CacheSet) (h : set ≠ []) :
    (set.getD (spec_victimIdx set) defaultLine).access_count = spec_minRecency set := by
  have hlt : set.findIdx (fun l => l.access_count == spec_minRecency set) < set.length :=
    spec_victimIdx_lt set h
  have hp := @List.findIdx_getElem SetLine (fun l => l.access_count == spec_minRecency set)
    set hlt
  rw [getD_eq_getElem set _ _ (spec_victimIdx_lt set h)]
  simp only [beq_iff_eq] at hp
  exact hp

lemma spec_victimIdx_first (set : CacheSet) (j : Nat) (hj : j < spec_victimIdx set)
    (hjl : j < set.length) :
    spec_minRecency set < (set.getD j defaultLine).access_count := by
  have hj' : j < set.findIdx (fun l => l.access_count == spec_minRecency set) := hj
  have hne := @List.not_of_lt_findIdx SetLine
    (fun l => l.access_count == spec_minRecency set) set j hj'
  have hge : spec_minRecency set ≤ set[j].access_count :=
    spec_minRecency_le set _ (List.getElem_mem hjl)
  rw [getD_eq_getElem set _ _ hjl]
  simp only [beq_eq_false_iff_ne, ne_eq] at hne
  omega

/-! ### The two miss branches and the hit branch of `simulate_set` -/

lemma no_match_iff (set : CacheSet) (tag : Nat) :
    (∀ l ∈ set, isMatch tag l = false) ↔
      (∀ l ∈ set, ¬(l.valid = true ∧ l.tag = tag)) := by
  constructor
  · intro h l hl hc
    have := h l hl
    simp [isMatch, hc.1, hc.2] at this
  · intro h l hl
    have := h l hl
    simp only [isMatch, Bool.and_eq_false_iff]
    by_cases hv : l.valid
    · right
      simp only [beq_eq_false_iff_ne, ne_eq]
      intro ht
      exact this ⟨hv, ht⟩
    · left
      simpa using hv

lemma filter_nil_of_no_match (set : CacheSet) (tag : Nat)
    (h : ∀ l ∈ set, isMatch tag l = false) :
    (set.filter (isMatch tag)).length = 0 := by
  rw [List.length_eq_zero, List.filter_eq_nil_iff]
  intro l hl
  simp [h l hl]

lemma hit_scan_fst_no_match (set : CacheSet) (tag : Nat)
    (h : ∀ l ∈ set, isMatch tag l = false) :
    (hit_scan set tag).1 = set := by
  rw [hit_scan_fst]
  conv_rhs => rw [← List.map_id set]
  apply List.map_congr_left
  intro a ha
  simp [h a ha]

lemma simulate_set_unfold (set : CacheSet) (par : CacheParam) (tag : Nat) :
    simulate_set set par tag =
      if (set.filter (isMatch tag)).length = 0 then
        if set.all (fun l => l.valid) then
          (updateLine (hit_scan set tag).1 (get_LRU (hit_scan set tag).1).1
             (fun l => { l with tag := tag,
                                access_count := (get_LRU (hit_scan set tag).1).2.2 + 1 }),
           { par with misses := par.misses + 1, evictions := par.evictions + 1 })
        else
          (updateLine (hit_scan set tag).1 (get_empty_line (hit_scan set tag).1)
             (fun l => { l with valid := true, tag := tag,
                                access_count := (get_LRU (hit_scan set tag).1).2.2 + 1 }),
           { par with misses := par.misses + 1 })
      else
        ((hit_scan set tag).1,
         { par with hits := par.hits + (set.filter (isMatch tag)).length }) := by
  cases hres : hit_scan set tag with
  | mk set1 hv =>
    cases hv with
    | mk h full =>
      have h2 : h = (set.filter (isMatch tag)).length := by
        rw [← hit_scan_count set tag, hres]
      have h3 : full = set.all (fun l => l.valid) := by
        rw [← hit_scan_full set tag, hres]
      subst h2
      subst h3
      simp only [simulate_set, hres]

lemma simulate_set_miss_full (set : CacheSet) (par : CacheParam) (tag : Nat)
    (hmiss : ∀ l ∈ set, isMatch tag l = false)
    (hall : set.all (fun l => l.valid) = true) :
    simulate_set set par tag =
      (updateLine set (spec_victimIdx set)
         (fun l => { l with tag := tag, access_count := spec_maxRecency set + 1 }),
       { par with misses := par.misses + 1, evictions := par.evictions + 1 }) := by
  rw [simulate_set_unfold, if_pos (filter_nil_of_no_match set tag hmiss),
    hit_scan_fst_no_match set tag hmiss, if_pos hall, get_LRU_eq]

lemma simulate_set_miss_fill (set : CacheSet) (par : CacheParam) (tag : Nat)
    (hmiss : ∀ l ∈ set, isMatch tag l = false)
    (hnall : set.all (fun l => l.valid) = false) :
    simulate_set set par tag =
      (updateLine set (get_empty_line set)
         (fun l => { l with valid := true, tag := tag,
                            access_count := spec_maxRecency set + 1 }),
       { par with misses := par.misses + 1 }) := by
  rw [simulate_set_unfold, if_pos (filter_nil_of_no_match set tag hmiss),
    hit_scan_fst_no_match set tag hmiss, if_neg (by simp [hnall]), get_LRU_eq]

lemma simulate_set_hit_branch (set : CacheSet) (par : CacheParam) (tag : Nat)
    (hnz : (set.filter (isMatch tag)).length ≠ 0) :
    simulate_set set par tag =
      ((hit_scan set tag).1,
       { par with hits := par.hits + (set.filter (isMatch tag)).length }) := by
  rw [simulate_set_unfold, if_neg hnz]

/-! ### `getD` bookkeeping for `set` and `map` -/

lemma getD_default_of_ge (l : List SetLine) (n : Nat) (h : l.length ≤ n) :
    l.getD n defaultLine = defaultLine := by
  rw [List.getD_eq_getElem?_getD, List.getElem?_eq_none h]
  rfl

lemma getD_set_self (set : CacheSet) (k : Nat) (x : SetLine) (h : k < set.length) :
    (set.set k x).getD k defaultLine = x := by
  rw [getD_eq_getElem _ _ _ (by simpa using h)]
  exact List.getElem_set_self (by simpa using h)

lemma getD_set_ne (set : CacheSet) (k : Nat) (x : SetLine) (j : Nat) (h : k ≠ j) :
    (set.set k x).getD j defaultLine = set.getD j defaultLine := by
  by_cases hj : j < set.length
  · rw [getD_eq_getElem _ _ _ (by simpa using hj), getD_eq_getElem _ _ _ hj]
    exact List.getElem_set_ne h _
  · rw [getD_default_of_ge _ _ (by simp; omega), getD_default_of_ge _ _ (by omega)]

lemma getD_map_lt (f : SetLine → SetLine) (set : CacheSet) (i : Nat) (h : i < set.length) :
    (set.map f).getD i defaultLine = f (set.getD i defaultLine) := by
  rw [getD_eq_getElem _ _ _ (by simpa using h), getD_eq_getElem _ _ _ h, List.getElem_map]

lemma getD_mem (set : CacheSet) (i : Nat) (h : i < set.length) :
    set.getD i defaultLine ∈ set := by
  rw [getD_eq_getElem _ _ _ h]
  exact List.getElem_mem h

/-! ### A predicate holding at exactly one index -/

lemma filter_length_one_of_unique (set : CacheSet) (p : SetLine → Bool) (i : Nat)
    (hi : i < set.length) (hp : p (set.getD i defaultLine) = true)
    (huniq : ∀ j, j < set.length → j ≠ i → p (set.getD j defaultLine) = false) :
    (set.filter p).length = 1 := by
  induction set generalizing i with
  | nil => simp at hi
  | cons a rest ih =>
    cases i with
    | zero =>
      simp only [List.getD_cons_zero] at hp
      have hrest : rest.filter p = [] := by
        rw [List.filter_eq_nil_iff]
        intro l hl
        obtain ⟨k, hk, rfl⟩ := List.mem_iff_getElem.1 hl
        have := huniq (k + 1) (by simpa using hk) (by omega)
        rw [List.getD_cons_succ, getD_eq_getElem _ _ _ hk] at this
        simp [this]
      simp [List.filter_cons, hp, hrest]
    | succ i' =>
      have ha : p a = false := by
        have := huniq 0 (by simp) (by omega)
        simpa using this
      have hi' : i' < rest.length := by simpa using hi
      have hp' : p (rest.getD i' defaultLine) = true := by simpa using hp
      have huniq' : ∀ j, j < rest.length → j ≠ i' → p (rest.getD j defaultLine) = false := by
        intro j hj hne
        have := huniq (j + 1) (by simpa using hj) (by omega)
        simpa using this
      simp [List.filter_cons, ha, ih i' hi' hp' huniq']

lemma hit_scan_fst_unique (set : CacheSet) (tag : Nat) (i : Nat)
    (hi : i < set.length) (hp : isMatch tag (set.getD i defaultLine) = true)
    (huniq : ∀ j, j < set.length → j ≠ i → isMatch tag (set.getD j defaultLine) = false) :
    (hit_scan set tag).1 = set.set i (bumpLine (set.getD i defaultLine)) := by
  rw [hit_scan_fst]
  induction set generalizing i with
  | nil => simp at hi
  | cons a rest ih =>
    cases i with
    | zero =>
      simp only [List.getD_cons_zero] at hp ⊢
      have hrest : rest.map (fun l => if isMatch tag l then bumpLine l else l) = rest := by
        conv_rhs => rw [← List.map_id rest]
        apply List.map_congr_left
        intro l hl
        obtain ⟨k, hk, rfl⟩ := List.mem_iff_getElem.1 hl
        have := huniq (k + 1) (by simpa using hk) (by omega)
        rw [List.getD_cons_succ, getD_eq_getElem _ _ _ hk] at this
        simp [this]
      simp [hp, hrest]
    | succ i' =>
      have ha : isMatch tag a = false := by
        have := huniq 0 (by simp) (by omega)
        simpa using this
      have hi' : i' < rest.length := by simpa using hi
      have hp' : isMatch tag (rest.getD i' defaultLine) = true := by simpa using hp
      have huniq' : ∀ j, j < rest.length → j ≠ i' →
          isMatch tag (rest.getD j defaultLine) = false := by
        intro j hj hne
        have := huniq (j + 1) (by simpa using hj) (by omega)
        simpa using this
      simp [ha, ih i' hi' hp' huniq']

/-- The hit case of `simulate_set` when the matching line is unique: only
that line's `access_count` is bumped and only `hits` is incremented. -/
lemma simulate_set_hit (set : CacheSet) (par : CacheParam) (tag : Nat) (i : Nat)
    (hi : i < set.length) (hp : isMatch tag (set.getD i defaultLine) = true)
    (huniq : ∀ j, j < set.length → j ≠ i → isMatch tag (set.getD j defaultLine) = false) :
    simulate_set set par tag =
      (set.set i (bumpLine (set.getD i defaultLine)),
       { par with hits := par.hits + 1 }) := by
  have hone : (set.filter (isMatch tag)).length = 1 :=
    filter_length_one_of_unique set (isMatch tag) i hi hp huniq
  rw [simulate_set_hit_branch set par tag (by omega), hone,
    hit_scan_fst_unique set tag i hi hp huniq]

/-! ### Preservation of the no-duplicate-resident-tags invariant -/

lemma noDupSet_nil : noDupSet [] := by
  intro i j hij hjl
  simp at hjl

lemma bump_branch_valid (tag : Nat) (l : SetLine) :
    (if isMatch tag l then bumpLine l else l).valid = l.valid := by
  split <;> rfl

lemma bump_branch_tag (tag : Nat) (l : SetLine) :
    (if isMatch tag l then bumpLine l else l).tag = l.tag := by
  split <;> rfl

lemma noDupSet_hit_scan (set : CacheSet) (tag : Nat) (hnd : noDupSet set) :
    noDupSet ((hit_scan set tag).1) := by
  rw [hit_scan_fst]
  intro i j hij hjl hvi hvj
  rw [List.length_map] at hjl
  have hil : i < set.length := Nat.lt_trans hij hjl
  rw [getD_map_lt _ _ _ hil, bump_branch_valid] at hvi
  rw [getD_map_lt _ _ _ hjl, bump_branch_valid] at hvj
  rw [getD_map_lt _ _ _ hil, getD_map_lt _ _ _ hjl, bump_branch_tag, bump_branch_tag]
  exact hnd i j hij hjl hvi hvj

lemma noDupSet_set_fresh (set : CacheSet) (k : Nat) (x : SetLine)
    (hk : k < set.length) (hnd : noDupSet set)
    (hfresh : ∀ l ∈ set, ¬(l.valid = true ∧ l.tag = x.tag)) :
    noDupSet (set.set k x) := by
  intro i j hij hjl hvi hvj
  rw [List.length_set] at hjl
  have hil : i < set.length := Nat.lt_trans hij hjl
  by_cases hik : i = k
  · subst hik
    have hjk : i ≠ j := by omega
    rw [getD_set_self set i x hk] at hvi ⊢
    rw [getD_set_ne set i x j hjk] at hvj ⊢
    intro heq
    exact hfresh _ (getD_mem set j hjl) ⟨hvj, heq.symm⟩
  · by_cases hjk : j = k
    · subst hjk
      rw [getD_set_self set j x hk] at hvj ⊢
      rw [getD_set_ne set j x i (by omega)] at hvi ⊢
      intro heq
      exact hfresh _ (getD_mem set i hil) ⟨hvi, heq⟩
    · rw [getD_set_ne set k x i (by omega)] at hvi ⊢
      rw [getD_set_ne set k x j (by omega)] at hvj ⊢
      exact hnd i j hij hjl hvi hvj

lemma no_match_of_filter_zero (set : CacheSet) (tag : Nat)
    (h : (set.filter (isMatch tag)).length = 0) :
    ∀ l ∈ set, isMatch tag l = false := by
  rw [List.length_eq_zero, List.filter_eq_nil_iff] at h
  intro l hl
  simpa using h l hl

lemma exists_invalid_of_not_all (set : CacheSet)
    (h : set.all (fun l => l.valid) = false) :
    ∃ l ∈ set, l.valid = false := by
  by_contra hc
  push_neg at hc
  have hall : set.all (fun l => l.valid) = true := by
    rw [List.all_eq_true]
    intro l hl
    have := hc l hl
    simpa using this
  rw [hall] at h
  cases h

lemma noDupSet_simulate_set (set : CacheSet) (par : CacheParam) (tag : Nat)
    (hnd : noDupSet set) : noDupSet (simulate_set set par tag).1 := by
  by_cases hz : (set.filter (isMatch tag)).length = 0
  · have hmiss := no_match_of_filter_zero set tag hz
    have hfresh : ∀ l ∈ set, ¬(l.valid = true ∧ l.tag = tag) :=
      (no_match_iff set tag).1 hmiss
    by_cases hall : set.all (fun l => l.valid) = true
    · by_cases hne : set = []
      · subst hne
        rw [simulate_set_miss_full [] par tag hmiss hall]
        exact noDupSet_nil
      · rw [simulate_set_miss_full set par tag hmiss hall]
        exact noDupSet_set_fresh set (spec_victimIdx set) _
          (spec_victimIdx_lt set hne) hnd hfresh
    · have hnall : set.all (fun l => l.valid) = false := by
        cases hc : set.all (fun l => l.valid)
        · rfl
        · exact absurd hc hall
      rw [simulate_set_miss_fill set par tag hmiss hnall]
      have hk := (get_empty_line_spec set (exists_invalid_of_not_all set hnall)).1
      exact noDupSet_set_fresh set (get_empty_line set) _ hk hnd hfresh
  · rw [simulate_set_hit_branch set par tag hz]
    exact noDupSet_hit_scan set tag hnd

lemma cache_getD_mem (c : CacheType) (i : Nat) (h : i < c.length) : c.getD i [] ∈ c := by
  rw [List.getD_eq_getElem?_getD, List.getElem?_eq_getElem h]
  exact List.getElem_mem h

lemma cache_getD_nil_of_ge (c : CacheType) (i : Nat) (h : c.length ≤ i) :
    c.getD i [] = [] := by
  rw [List.getD_eq_getElem?_getD, List.getElem?_eq_none h]
  rfl

lemma cache_getD_noDup (c : CacheType) (hnd : noDupCache c) (i : Nat) :
    noDupSet (c.getD i []) := by
  by_cases h : i < c.length
  · exact hnd _ (cache_getD_mem c i h)
  · rw [cache_getD_nil_of_ge c i (by omega)]
    exact noDupSet_nil

lemma noDupCache_simulate_cache (c : CacheType) (par : CacheParam) (addr : Nat)
    (hnd : noDupCache c) : noDupCache (simulate_cache c par addr).1 := by
  intro set hset
  simp only [simulate_cache] at hset
  rcases List.mem_or_eq_of_mem_set hset with hmem | rfl
  · exact hnd set hmem
  · exact noDupSet_simulate_set _ par _ (cache_getD_noDup c hnd _)

lemma noDupCache_build (num_sets num_lines : Nat) :
    noDupCache (build_cache num_sets num_lines) := by
  intro set hset
  have hrep : set = List.replicate num_lines ⟨false, 0, 0⟩ :=
    List.eq_of_mem_replicate hset
  subst hrep
  intro i j hij hjl hvi hvj
  rw [List.length_replicate] at hjl
  rw [getD_eq_getElem _ _ _ (by simpa using hjl), List.getElem_replicate] at hvj
  cases hvj

/-! ### Per-access statistics -/

lemma noDup_unique_match (set : CacheSet) (tag : Nat) (hnd : noDupSet set)
    (i : Nat) (hi : i < set.length) (hp : isMatch tag (set.getD i defaultLine) = true) :
    ∀ j, j < set.length → j ≠ i → isMatch tag (set.getD j defaultLine) = false := by
  intro j hj hne
  cases hc : isMatch tag (set.getD j defaultLine)
  · rfl
  · exfalso
    simp only [isMatch, Bool.and_eq_true, beq_iff_eq] at hp hc
    rcases Nat.lt_or_ge j i with hlt | hge
    · exact hnd j i hlt hi hc.1 hp.1 (hc.2.trans hp.2.symm)
    · have hij : i < j := by omega
      exact hnd i j hij hj hp.1 hc.1 (hp.2.trans hc.2.symm)

lemma exists_match_index (set : CacheSet) (tag : Nat)
    (h : (set.filter (isMatch tag)).length ≠ 0) :
    ∃ i, i < set.length ∧ isMatch tag (set.getD i defaultLine) = true := by
  cases hf : set.filter (isMatch tag) with
  | nil => rw [hf] at h; simp at h
  | cons a rest =>
    have ha : a ∈ set.filter (isMatch tag) := by
      rw [hf]
      exact List.mem_cons_self a rest
    have hmem := List.mem_of_mem_filter ha
    have hmatch := List.of_mem_filter ha
    obtain ⟨i, hi, rfl⟩ := List.mem_iff_getElem.1 hmem
    exact ⟨i, hi, by rw [getD_eq_getElem _ _ _ hi]; exact hmatch⟩

/-- One access either hits (only `hits` incremented), misses into a free
line (only `misses` incremented), or misses with eviction (`misses` and
`evictions` incremented), provided the set holds no duplicate tags. -/
lemma simulate_set_stats (set : CacheSet) (par : CacheParam) (tag : Nat)
    (hnd : noDupSet set) :
    (simulate_set set par tag).2 = { par with hits := par.hits + 1 } ∨
    (simulate_set set par tag).2 = { par with misses := par.misses + 1 } ∨
    (simulate_set set par tag).2 =
      { par with misses := par.misses + 1, evictions := par.evictions + 1 } := by
  by_cases hz : (set.filter (isMatch tag)).length = 0
  · have hmiss := no_match_of_filter_zero set tag hz
    by_cases hall : set.all (fun l => l.valid) = true
    · right; right
      rw [simulate_set_miss_full set par tag hmiss hall]
    · right; left
      have hnall : set.all (fun l => l.valid) = false := by
        cases hc : set.all (fun l => l.valid)
        · rfl
        · exact absurd hc hall
      rw [simulate_set_miss_fill set par tag hmiss hnall]
  · left
    obtain ⟨i, hi, hp⟩ := exists_match_index set tag hz
    rw [simulate_set_hit set par tag i hi hp (noDup_unique_match set tag hnd i hi hp)]

/-- Without any invariant: `evictions` can only move together with a
`misses` increment, and by at most one. -/
lemma simulate_set_stats_weak (set : CacheSet) (par : CacheParam) (tag : Nat) :
    ((simulate_set set par tag).2.misses = par.misses ∧
     (simulate_set set par tag).2.evictions = par.evictions) ∨
    ((simulate_set set par tag).2.misses = par.misses + 1 ∧
     ((simulate_set set par tag).2.evictions = par.evictions ∨
      (simulate_set set par tag).2.evictions = par.evictions + 1)) := by
  by_cases hz : (set.filter (isMatch tag)).length = 0
  · by_cases hall : set.all (fun l => l.valid) = true
    · right
      rw [simulate_set_unfold, if_pos hz, if_pos hall]
      exact ⟨rfl, Or.inr rfl⟩
    · right
      rw [simulate_set_unfold, if_pos hz, if_neg hall]
      exact ⟨rfl, Or.inl rfl⟩
  · left
    rw [simulate_set_unfold, if_neg hz]
    exact ⟨rfl, rfl⟩

lemma simulate_set_geometry (set : CacheSet) (par : CacheParam) (tag : Nat) :
    (simulate_set set par tag).2.s = par.s ∧ (simulate_set set par tag).2.b = par.b ∧
      (simulate_set set par tag).2.E = par.E := by
  by_cases hz : (set.filter (isMatch tag)).length = 0
  · by_cases hall : set.all (fun l => l.valid) = true
    · rw [simulate_set_unfold, if_pos hz, if_pos hall]
      exact ⟨rfl, rfl, rfl⟩
    · rw [simulate_set_unfold, if_pos hz, if_neg hall]
      exact ⟨rfl, rfl, rfl⟩
  · rw [simulate_set_unfold, if_neg hz]
    exact ⟨rfl, rfl, rfl⟩

lemma simulate_set_length (set : CacheSet) (par : CacheParam) (tag : Nat) :
    ((simulate_set set par tag).1).length = set.length := by
  by_cases hz : (set.filter (isMatch tag)).length = 0
  · by_cases hall : set.all (fun l => l.valid) = true
    · rw [simulate_set_unfold, if_pos hz, if_pos hall]
      simp [updateLine, hit_scan_fst]
    · rw [simulate_set_unfold, if_pos hz, if_neg hall]
      simp [updateLine, hit_scan_fst]
  · rw [simulate_set_unfold, if_neg hz]
    simp [hit_scan_fst]

/-- After any access, a valid line holding the accessed tag is resident. -/
lemma simulate_set_resident (set : CacheSet) (par : CacheParam) (tag : Nat)
    (hne : set ≠ []) :
    ∃ i, i < ((simulate_set set par tag).1).length ∧
      isMatch tag (((simulate_set set par tag).1).getD i defaultLine) = true := by
  by_cases hz : (set.filter (isMatch tag)).length = 0
  · have hmiss := no_match_of_filter_zero set tag hz
    by_cases hall : set.all (fun l => l.valid) = true
    · rw [simulate_set_miss_full set par tag hmiss hall]
      have hk := spec_victimIdx_lt set hne
      refine ⟨spec_victimIdx set, ?_, ?_⟩
      · simpa [updateLine] using hk
      · unfold updateLine
        rw [getD_set_self set _ _ hk]
        have hv : (set.getD (spec_victimIdx set) defaultLine).valid = true := by
          have := List.all_eq_true.1 hall _ (getD_mem set _ hk)
          simpa using this
        simp only [isMatch, Bool.and_eq_true, beq_iff_eq]
        exact ⟨hv, trivial⟩
    · have hnall : set.all (fun l => l.valid) = false := by
        cases hc : set.all (fun l => l.valid)
        · rfl
        · exact absurd hc hall
      rw [simulate_set_miss_fill set par tag hmiss hnall]
      have hspec := get_empty_line_spec set (exists_invalid_of_not_all set hnall)
      refine ⟨get_empty_line set, ?_, ?_⟩
      · simpa [updateLine] using hspec.1
      · unfold updateLine
        rw [getD_set_self set _ _ hspec.1]
        simp [isMatch]
  · obtain ⟨i, hi, hp⟩ := exists_match_index set tag hz
    rw [simulate_set_hit_branch set par tag hz, hit_scan_fst]
    refine ⟨i, by simpa using hi, ?_⟩
    rw [getD_map_lt _ _ _ hi, if_pos hp]
    simp only [isMatch, bumpLine, Bool.and_eq_true, beq_iff_eq] at hp ⊢
    exact hp

/-! ### Lifting to the whole cache and to traces -/

lemma simulate_cache_snd (c : CacheType) (par : CacheParam) (addr : Nat) :
    (simulate_cache c par addr).2 =
      (simulate_set (c.getD (decompose_setIndex par.s par.b addr) []) par
        (decompose_tag par.s par.b addr)).2 := rfl

lemma simulate_cache_fst (c : CacheType) (par : CacheParam) (addr : Nat) :
    (simulate_cache c par addr).1 =
      c.set (decompose_setIndex par.s par.b addr)
        (simulate_set (c.getD (decompose_setIndex par.s par.b addr) []) par
          (decompose_tag par.s par.b addr)).1 := rfl

lemma simulate_cache_stats (c : CacheType) (par : CacheParam) (addr : Nat)
    (hnd : noDupCache c) :
    (simulate_cache c par addr).2 = { par with hits := par.hits + 1 } ∨
    (simulate_cache c par addr).2 = { par with misses := par.misses + 1 } ∨
    (simulate_cache c par addr).2 =
      { par with misses := par.misses + 1, evictions := par.evictions + 1 } := by
  rw [simulate_cache_snd]
  exact simulate_set_stats _ par _ (cache_getD_noDup c hnd _)

lemma simulate_cache_sum (c : CacheType) (par : CacheParam) (addr : Nat)
    (hnd : noDupCache c) :
    (simulate_cache c par addr).2.hits + (simulate_cache c par addr).2.misses =
      par.hits + par.misses + 1 := by
  rcases simulate_cache_stats c par addr hnd with h | h | h <;> rw [h] <;> simp <;> omega

lemma simulate_cache_evict (c : CacheType) (par : CacheParam) (addr : Nat) :
    ((simulate_cache c par addr).2.misses = par.misses ∧
     (simulate_cache c par addr).2.evictions = par.evictions) ∨
    ((simulate_cache c par addr).2.misses = par.misses + 1 ∧
     ((simulate_cache c par addr).2.evictions = par.evictions ∨
      (simulate_cache c par addr).2.evictions = par.evictions + 1)) := by
  rw [simulate_cache_snd]
  exact simulate_set_stats_weak _ par _

lemma run_record_noDup (c : CacheType) (par : CacheParam) (r : AccessRecord)
    (hnd : noDupCache c) : noDupCache (run_record (c, par) r).1 := by
  cases hk : r.kind
  · simpa [run_record, hk] using hnd
  · simpa [run_record, hk] using noDupCache_simulate_cache c par r.address hnd
  · simpa [run_record, hk] using noDupCache_simulate_cache c par r.address hnd
  · simp only [run_record, hk]
    exact noDupCache_simulate_cache _ _ _ (noDupCache_simulate_cache c par r.address hnd)

lemma run_record_sum (c : CacheType) (par : CacheParam) (r : AccessRecord)
    (hnd : noDupCache c) :
    (run_record (c, par) r).2.hits + (run_record (c, par) r).2.misses =
      par.hits + par.misses + recordCost r := by
  cases hk : r.kind
  · simp [run_record, hk, recordCost]
  · simpa [run_record, hk, recordCost] using simulate_cache_sum c par r.address hnd
  · simpa [run_record, hk, recordCost] using simulate_cache_sum c par r.address hnd
  · simp only [run_record, hk, recordCost]
    rw [simulate_cache_sum _ _ _ (noDupCache_simulate_cache c par r.address hnd),
      simulate_cache_sum c par r.address hnd]

lemma run_trace_cons (c : CacheType) (par : CacheParam) (r : AccessRecord)
    (rest : List AccessRecord) :
    run_trace c par (r :: rest) =
      run_trace (run_record (c, par) r).1 (run_record (c, par) r).2 rest := by
  simp only [run_trace, List.foldl_cons]

lemma run_trace_sum (trace : List AccessRecord) (c : CacheType) (par : CacheParam)
    (hnd : noDupCache c) :
    (run_trace c par trace).2.hits + (run_trace c par trace).2.misses =
      par.hits + par.misses + accessCount trace := by
  induction trace generalizing c par with
  | nil => simp [run_trace, accessCount]
  | cons r rest ih =>
    rw [run_trace_cons, accessCount,
      ih _ _ (run_record_noDup c par r hnd), run_record_sum c par r hnd]
    omega

lemma run_record_evict_le (c : CacheType) (par : CacheParam) (r : AccessRecord)
    (h : par.evictions ≤ par.misses) :
    (run_record (c, par) r).2.evictions ≤ (run_record (c, par) r).2.misses := by
  cases hk : r.kind
  · simpa [run_record, hk] using h
  · have := simulate_cache_evict c par r.address
    simp only [run_record, hk]
    rcases this with ⟨h1, h2⟩ | ⟨h1, h2 | h2⟩ <;> omega
  · have := simulate_cache_evict c par r.address
    simp only [run_record, hk]
    rcases this with ⟨h1, h2⟩ | ⟨h1, h2 | h2⟩ <;> omega
  · simp only [run_record, hk]
    have hmid := simulate_cache_evict c par r.address
    have hend := simulate_cache_evict (simulate_cache c par r.address).1
      (simulate_cache c par r.address).2 r.address
    rcases hmid with ⟨h1, h2⟩ | ⟨h1, h2 | h2⟩ <;>
      rcases hend with ⟨h3, h4⟩ | ⟨h3, h4 | h4⟩ <;> omega

lemma run_trace_evict_le (trace : List AccessRecord) (c : CacheType) (par : CacheParam)
    (h : par.evictions ≤ par.misses) :
    (run_trace c par trace).2.evictions ≤ (run_trace c par trace).2.misses := by
  induction trace generalizing c par with
  | nil => simpa [run_trace] using h
  | cons r rest ih =>
    rw [run_trace_cons]
    exact ih _ _ (run_record_evict_le c par r h)

lemma noDupCache_run_trace (trace : List AccessRecord) (c : CacheType) (par : CacheParam)
    (hnd : noDupCache c) : noDupCache (run_trace c par trace).1 := by
  induction trace generalizing c par with
  | nil => simpa [run_trace] using hnd
  | cons r rest ih =>
    rw [run_trace_cons]
    exact ih _ _ (run_record_noDup c par r hnd)

/-! ### Address decomposition arithmetic -/

lemma decompose_setIndex_eq (s b address : Nat) (hsb : s + b ≤ 64) :
    decompose_setIndex s b address = address / 2 ^ b % 2 ^ s := by
  show (address * 2 ^ (64 - (s + b)) % 2 ^ 64) / 2 ^ (64 - (s + b) + b) =
    address / 2 ^ b % 2 ^ s
  have h64 : (2 : Nat) ^ 64 = 2 ^ (s + b) * 2 ^ (64 - (s + b)) := by
    rw [← pow_add]
    congr 1
    omega
  have hsplit : (2 : Nat) ^ (s + b) = 2 ^ b * 2 ^ s := by
    rw [← pow_add, add_comm s b]
  have hshift : (2 : Nat) ^ (64 - (s + b) + b) = 2 ^ (64 - (s + b)) * 2 ^ b :=
    pow_add 2 _ b
  rw [h64, Nat.mul_mod_mul_right, hshift, ← Nat.div_div_eq_div_mul,
    Nat.mul_div_cancel _ (Nat.pos_pow_of_pos _ (by omega)), hsplit,
    Nat.mod_mul_right_div_self]

lemma decompose_recompose (s b address : Nat) :
    address = decompose_tag s b address * 2 ^ (s + b) +
      (address / 2 ^ b % 2 ^ s) * 2 ^ b + spec_offset b address := by
  unfold decompose_tag spec_offset
  have h1 : 2 ^ b * (address / 2 ^ b) + address % 2 ^ b = address :=
    Nat.div_add_mod address (2 ^ b)
  have h2 : 2 ^ s * (address / 2 ^ b / 2 ^ s) + address / 2 ^ b % 2 ^ s =
      address / 2 ^ b := Nat.div_add_mod (address / 2 ^ b) (2 ^ s)
  have h3 : address / 2 ^ (s + b) = address / 2 ^ b / 2 ^ s := by
    rw [Nat.div_div_eq_div_mul, ← pow_add, add_comm b s]
  have hsplit : (2 : Nat) ^ (s + b) = 2 ^ s * 2 ^ b := by
    rw [← pow_add]
  calc address = 2 ^ b * (address / 2 ^ b) + address % 2 ^ b := h1.symm
    _ = 2 ^ b * (2 ^ s * (address / 2 ^ b / 2 ^ s) + address / 2 ^ b % 2 ^ s) +
          address % 2 ^ b := by rw [h2]
    _ = address / 2 ^ b / 2 ^ s * (2 ^ s * 2 ^ b) +
          address / 2 ^ b % 2 ^ s * 2 ^ b + address % 2 ^ b := by ring
    _ = _ := by rw [h3, hsplit]

lemma decompose_tag_lt (s b address : Nat) (haddr : address < 2 ^ 64)
    (hsb : s + b ≤ 64) :
    decompose_tag s b address < 2 ^ (64 - (s + b)) := by
  unfold decompose_tag
  apply Nat.div_lt_of_lt_mul
  calc address < 2 ^ 64 := haddr
    _ = 2 ^ (s + b) * 2 ^ (64 - (s + b)) := by
        rw [← pow_add]
        congr 1
        omega

/-! ### The fill scenario: loading `E` distinct tags into an empty set -/

lemma filledLines_length (ts : List Nat) (k : Nat) :
    (filledLines ts k).length = ts.length := by
  induction ts generalizing k with
  | nil => rfl
  | cons t ts ih => simp [filledLines, ih]

lemma filledLines_no_match (ts : List Nat) (k t : Nat) (h : t ∉ ts) :
    ∀ l ∈ filledLines ts k, isMatch t l = false := by
  induction ts generalizing k with
  | nil => intro l hl; simp [filledLines] at hl
  | cons a ts ih =>
    intro l hl
    rcases List.mem_cons.1 hl with rfl | hmem
    · have hne : a ≠ t := by
        intro he
        exact h (he ▸ List.mem_cons_self a ts)
      simp [isMatch, hne]
    · exact ih (k + 1) (fun hc => h (List.mem_cons_of_mem a hc)) l hmem

lemma fillState_no_match (ts : List Nat) (E t : Nat) (h : t ∉ ts) :
    ∀ l ∈ fillState ts E, isMatch t l = false := by
  intro l hl
  rcases List.mem_append.1 hl with h1 | h2
  · exact filledLines_no_match ts 0 t h l h1
  · rw [List.eq_of_mem_replicate h2]
    rfl

lemma fillState_not_all (ts : List Nat) (E : Nat) (h : ts.length < E) :
    (fillState ts E).all (fun l => l.valid) = false := by
  cases hc : (fillState ts E).all (fun l => l.valid)
  · rfl
  · exfalso
    have hmem : defaultLine ∈ fillState ts E := by
      apply List.mem_append_right
      apply List.mem_replicate.2
      exact ⟨by omega, rfl⟩
    have := List.all_eq_true.1 hc defaultLine hmem
    simp [defaultLine] at this

lemma filledLines_all_valid (ts : List Nat) (k : Nat) :
    ∀ l ∈ filledLines ts k, l.valid = true := by
  induction ts generalizing k with
  | nil => intro l hl; simp [filledLines] at hl
  | cons a ts ih =>
    intro l hl
    rcases List.mem_cons.1 hl with rfl | hmem
    · rfl
    · exact ih (k + 1) l hmem

lemma fillState_all_valid (ts : List Nat) (E : Nat) (h : E ≤ ts.length) :
    (fillState ts E).all (fun l => l.valid) = true := by
  rw [List.all_eq_true]
  intro l hl
  rcases List.mem_append.1 hl with h1 | h2
  · simpa using filledLines_all_valid ts 0 l h1
  · exfalso
    have := List.mem_replicate.1 h2
    omega

lemma foldl_max_filledLines (ts : List Nat) (k m : Nat) (hm : m ≤ k) :
    (filledLines ts k).foldl (fun a l => max a l.access_count) m =
      if ts.length = 0 then m else k + ts.length := by
  induction ts generalizing k m with
  | nil => simp [filledLines]
  | cons t ts ih =>
    simp only [filledLines, List.foldl_cons]
    rw [Nat.max_eq_right (by omega)]
    rw [ih (k + 1) (k + 1) (Nat.le_refl _)]
    by_cases h : ts.length = 0 <;> simp [h] <;> omega

lemma foldl_max_replicate (n m : Nat) :
    (List.replicate n defaultLine).foldl (fun a l => max a l.access_count) m = m := by
  induction n generalizing m with
  | zero => rfl
  | succ n ih =>
    rw [List.replicate_succ, List.foldl_cons]
    rw [show max m defaultLine.access_count = m from by simp [defaultLine]]
    exact ih m

lemma spec_maxRecency_fillState (ts : List Nat) (E : Nat) :
    spec_maxRecency (fillState ts E) = ts.length := by
  unfold spec_maxRecency fillState
  rw [List.foldl_append, foldl_max_filledLines ts 0 0 (Nat.le_refl 0),
    foldl_max_replicate]
  by_cases h : ts.length = 0 <;> simp [h]

lemma get_empty_line_aux_filled (ts : List Nat) (k i : Nat) (l2 : CacheSet) :
    get_empty_line_aux (filledLines ts k ++ l2) i =
      get_empty_line_aux l2 (i + ts.length) := by
  induction ts generalizing k i with
  | nil => simp [filledLines]
  | cons t ts ih =>
    have hcons : filledLines (t :: ts) k ++ l2 =
        ⟨true, k + 1, t⟩ :: (filledLines ts (k + 1) ++ l2) := rfl
    rw [hcons]
    show (if (⟨true, k + 1, t⟩ : SetLine).valid = false then i
          else get_empty_line_aux (filledLines ts (k + 1) ++ l2) (i + 1)) = _
    rw [if_neg (by simp), ih (k + 1) (i + 1)]
    congr 1
    simp only [List.length_cons]
    omega

lemma get_empty_line_fillState (ts : List Nat) (E : Nat) (h : ts.length < E) :
    get_empty_line (fillState ts E) = ts.length := by
  unfold get_empty_line fillState
  rw [get_empty_line_aux_filled ts 0 0]
  cases hE : E - ts.length with
  | zero => omega
  | succ n =>
    rw [List.replicate_succ]
    simp [get_empty_line_aux, defaultLine]

lemma getD_append_eq (l1 l2 : CacheSet) (d : SetLine) (n : Nat) (h : n = l1.length) :
    (l1 ++ l2).getD n d = l2.getD 0 d := by
  subst h
  induction l1 with
  | nil => rfl
  | cons a l1 ih => simpa using ih

lemma set_append_eq (l1 l2 : CacheSet) (x : SetLine) (n : Nat) (h : n = l1.length) :
    (l1 ++ l2).set n x = l1 ++ l2.set 0 x := by
  subst h
  induction l1 with
  | nil => rfl
  | cons a l1 ih => simpa using ih

lemma getD_fillState_len (ts : List Nat) (E : Nat) (h : ts.length < E) :
    (fillState ts E).getD ts.length defaultLine = defaultLine := by
  unfold fillState
  rw [getD_append_eq _ _ _ _ (filledLines_length ts 0).symm]
  cases hE : E - ts.length with
  | zero => omega
  | succ n => rw [List.replicate_succ]; rfl

lemma filledLines_append_one (ts : List Nat) (k t : Nat) :
    filledLines (ts ++ [t]) k =
      filledLines ts k ++ [⟨true, k + ts.length + 1, t⟩] := by
  induction ts generalizing k with
  | nil => simp [filledLines]
  | cons a ts ih =>
    show (⟨true, k + 1, a⟩ : SetLine) :: filledLines (ts ++ [t]) (k + 1) = _
    rw [ih (k + 1)]
    have hac : k + 1 + ts.length + 1 = k + (a :: ts).length + 1 := by
      simp only [List.length_cons]
      omega
    rw [hac]
    rfl

lemma fill_step (E : Nat) (done : List Nat) (t : Nat) (par : CacheParam)
    (hlen : done.length < E) (hnotin : t ∉ done) :
    simulate_set (fillState done E) par t =
      (fillState (done ++ [t]) E, { par with misses := par.misses + 1 }) := by
  rw [simulate_set_miss_fill _ par t (fillState_no_match done E t hnotin)
    (fillState_not_all done E hlen)]
  unfold updateLine
  rw [get_empty_line_fillState done E hlen, getD_fillState_len done E hlen,
    spec_maxRecency_fillState done E]
  congr 1
  show (fillState done E).set done.length ⟨true, done.length + 1, t⟩ = _
  unfold fillState
  rw [set_append_eq _ _ _ _ (filledLines_length done 0).symm,
    filledLines_append_one done 0 t]
  cases hE : E - done.length with
  | zero => omega
  | succ n =>
    rw [List.replicate_succ]
    have h1 : E - (done ++ [t]).length = n := by
      simp only [List.length_append, List.length_cons, List.length_nil]
      omega
    rw [h1]
    simp [List.set_cons_zero]

lemma fill_run (E : Nat) (done todo : List Nat) (par : CacheParam)
    (hlen : done.length + todo.length ≤ E) (hnd : (done ++ todo).Nodup) :
    todo.foldl (fun st x => simulate_set st.1 st.2 x) (fillState done E, par) =
      (fillState (done ++ todo) E,
       { par with misses := par.misses + todo.length }) := by
  induction todo generalizing done par with
  | nil => simp [fillState]
  | cons t todo ih =>
    rw [List.foldl_cons]
    have hnotin : t ∉ done := by
      have hdisj := List.disjoint_of_nodup_append hnd
      intro hc
      exact hdisj hc (List.mem_cons_self t todo)
    have hstep := fill_step E done t par (by simp at hlen ⊢; omega) hnotin
    rw [show simulate_set (fillState done E, par).1 (fillState done E, par).2 t =
      simulate_set (fillState done E) par t from rfl, hstep]
    have hassoc : done ++ t :: todo = (done ++ [t]) ++ todo := by simp
    rw [ih (done ++ [t]) _ (by simp at hlen ⊢; omega) (by rw [← hassoc]; exact hnd)]
    rw [hassoc]
    have : par.misses + 1 + todo.length = par.misses + (todo.length + 1) := by omega
    simp [this]

lemma filledLines_ac_ge (ts : List Nat) (k : Nat) :
    ∀ l ∈ filledLines ts k, k + 1 ≤ l.access_count := by
  induction ts generalizing k with
  | nil => intro l hl; simp [filledLines] at hl
  | cons a ts ih =>
    intro l hl
    rcases List.mem_cons.1 hl with rfl | hmem
    · exact Nat.le_refl _
    · exact Nat.le_trans (by omega) (ih (k + 1) l hmem)

lemma fillState_full_eq (ts : List Nat) (E : Nat) (h : ts.length = E) :
    fillState ts E = filledLines ts 0 := by
  unfold fillState
  rw [h, Nat.sub_self]
  simp

lemma spec_minRecency_filled_cons (t0 : Nat) (rest : List Nat) :
    spec_minRecency (filledLines (t0 :: rest) 0) = 1 := by
  show (filledLines rest 1).foldl (fun m x => min m x.access_count) 1 = 1
  exact foldl_min_eq_seed _ _ (fun l hl => Nat.le_trans (by omega)
    (filledLines_ac_ge rest 1 l hl))

lemma spec_victimIdx_filled_cons (t0 : Nat) (rest : List Nat) :
    spec_victimIdx (filledLines (t0 :: rest) 0) = 0 := by
  unfold spec_victimIdx
  rw [spec_minRecency_filled_cons t0 rest]
  show List.findIdx _ ((⟨true, 1, t0⟩ : SetLine) :: filledLines rest 1) = 0
  rw [List.findIdx_cons]
  simp

lemma cache_getD_set_self (c : CacheType) (k : Nat) (x : CacheSet)
    (h : k < c.length) : (c.set k x).getD k [] = x := by
  rw [List.getD_eq_getElem?_getD, List.getElem?_eq_getElem (by simpa using h)]
  simp

lemma noDupSet_of_pairwise (set : CacheSet)
    (h : List.Pairwise (fun a b => a.valid = true → b.valid = true → a.tag ≠ b.tag) set) :
    noDupSet set := by
  intro i j hij hjl hvi hvj
  have hil : i < set.length := Nat.lt_trans hij hjl
  rw [getD_eq_getElem _ _ _ hil] at hvi ⊢
  rw [getD_eq_getElem _ _ _ hjl] at hvj ⊢
  exact (List.pairwise_iff_getElem.1 h) i j hil hjl hij hvi hvj

/-! ## The claims -/

/-- Claim C10: on every single access, the `evictions` counter moves only in
the miss branch, by at most 1, and only together with a `misses` increment;
hence starting from zeroed counters, `evictions ≤ misses` after every trace
(every prefix of a trace is itself a trace). -/
theorem claim_C10 :
    (∀ (c : CacheType) (par : CacheParam) (addr : Nat),
      ((simulate_cache c par addr).2.misses = par.misses ∧
       (simulate_cache c par addr).2.evictions = par.evictions) ∨
      ((simulate_cache c par addr).2.misses = par.misses + 1 ∧
       ((simulate_cache c par addr).2.evictions = par.evictions ∨
        (simulate_cache c par addr).2.evictions = par.evictions + 1))) ∧
    (∀ (s b E : Nat) (c : CacheType) (trace : List AccessRecord),
      (run_trace c ⟨s, b, E, 0, 0, 0⟩ trace).2.evictions ≤
        (run_trace c ⟨s, b, E, 0, 0, 0⟩ trace).2.misses) :=
  ⟨simulate_cache_evict,
   fun _ _ _ c trace => run_trace_evict_le trace c _ (Nat.le_refl 0)⟩

/-- Claim C8: the cache built at startup has no set with two valid lines
sharing a tag; every single access preserves this, and hence it holds in
every state reachable by running any trace from the built cache. -/
theorem claim_C8 :
    (∀ num_sets num_lines : Nat, noDupCache (build_cache num_sets num_lines)) ∧
    (∀ (c : CacheType) (par : CacheParam) (addr : Nat),
      noDupCache c → noDupCache (simulate_cache c par addr).1) ∧
    (∀ (num_sets num_lines : Nat) (par : CacheParam) (trace : List AccessRecord),
      noDupCache (run_trace (build_cache num_sets num_lines) par trace).1) :=
  ⟨noDupCache_build,
   noDupCache_simulate_cache,
   fun num_sets num_lines par trace =>
     noDupCache_run_trace trace _ par (noDupCache_build num_sets num_lines)⟩

/-- Witness for C8 at a concrete input. -/
theorem claim_C8_witness :
    noDupCache (build_cache 2 2) ∧
    noDupCache (simulate_cache (build_cache 2 2) ⟨1, 1, 2, 0, 0, 0⟩ 16).1 :=
  ⟨claim_C8.1 2 2,
   claim_C8.2.1 (build_cache 2 2) ⟨1, 1, 2, 0, 0, 0⟩ 16 (claim_C8.1 2 2)⟩

/-- Claim C4: every single access increments exactly one of `hits` or
`misses`, by exactly 1 (in a duplicate-free cache); consequently over any
trace run from the freshly built cache, `hits + misses` equals the number
of accesses issued (`I` skipped, `L`/`S` one each, `M` two each). -/
theorem claim_C4 :
    (∀ (c : CacheType) (par : CacheParam) (addr : Nat), noDupCache c →
      ((simulate_cache c par addr).2.hits = par.hits + 1 ∧
       (simulate_cache c par addr).2.misses = par.misses) ∨
      ((simulate_cache c par addr).2.hits = par.hits ∧
       (simulate_cache c par addr).2.misses = par.misses + 1)) ∧
    (∀ (num_sets num_lines : Nat) (par : CacheParam) (trace : List AccessRecord),
      (run_trace (build_cache num_sets num_lines) par trace).2.hits +
        (run_trace (build_cache num_sets num_lines) par trace).2.misses =
        par.hits + par.misses + accessCount trace) := by
  constructor
  · intro c par addr hnd
    rcases simulate_cache_stats c par addr hnd with h | h | h
    · left
      rw [h]
      exact ⟨rfl, rfl⟩
    · right
      rw [h]
      exact ⟨rfl, rfl⟩
    · right
      rw [h]
      exact ⟨rfl, rfl⟩
  · intro num_sets num_lines par trace
    exact run_trace_sum trace _ par (noDupCache_build num_sets num_lines)

/-- Witness for C4 at a concrete input. -/
theorem claim_C4_witness :
    ((simulate_cache (build_cache 2 1) ⟨1, 1, 1, 0, 0, 0⟩ 16).2.hits = 0 + 1 ∧
     (simulate_cache (build_cache 2 1) ⟨1, 1, 1, 0, 0, 0⟩ 16).2.misses = 0) ∨
    ((simulate_cache (build_cache 2 1) ⟨1, 1, 1, 0, 0, 0⟩ 16).2.hits = 0 ∧
     (simulate_cache (build_cache 2 1) ⟨1, 1, 1, 0, 0, 0⟩ 16).2.misses = 0 + 1) :=
  claim_C4.1 (build_cache 2 1) ⟨1, 1, 1, 0, 0, 0⟩ 16 (noDupCache_build 2 1)

/-- Counterexample to C9 as stated: `s = -1` is non-positive, yet the
configuration check does not fire (it only compares with zero) and `main`
proceeds to build a cache and start the simulation. -/
theorem claim_C9_cex :
    (-1 : Int) < 0 ∧ config_missing (-1) 1 1 false = false ∧
      (main_setup (-1) 1 1 false).isSome = true := by
  refine ⟨by decide, by decide, by decide⟩

/-- Claim C9 (amended): `main` exits before `build_cache` exactly when
`s`, `E` or `b` equals zero (which is also what an absent option leaves
behind after `bzero`) or the trace file is absent; negative values pass
the check. -/
theorem claim_C9 (s E b : Int) (tf : Bool) :
    main_setup s E b tf = none ↔ (s = 0 ∨ E = 0 ∨ b = 0 ∨ tf = true) := by
  have hc : config_missing s E b tf = true ↔ (s = 0 ∨ E = 0 ∨ b = 0 ∨ tf = true) := by
    simp [config_missing]
    tauto
  rw [← hc]
  unfold main_setup
  by_cases h : config_missing s E b tf = true
  · simp [h]
  · simp [h]

/-- Counterexample to C5 as stated: with `s=1, E=1, b=1` the addresses
0x10 and 0x20 map to the same set (the set-index bit, bit 1, is 0 in
both), so the trace `L 10 / L 20 / L 10` does not produce
`(hits, misses, evictions) = (1, 2, 0)`. -/
theorem claim_C5_cex :
    decompose_setIndex 1 1 0x10 = decompose_setIndex 1 1 0x20 ∧
    ¬((run_trace (build_cache 2 1) ⟨1, 1, 1, 0, 0, 0⟩
         [⟨.load, 0x10⟩, ⟨.load, 0x20⟩, ⟨.load, 0x10⟩]).2.hits = 1 ∧
      (run_trace (build_cache 2 1) ⟨1, 1, 1, 0, 0, 0⟩
         [⟨.load, 0x10⟩, ⟨.load, 0x20⟩, ⟨.load, 0x10⟩]).2.misses = 2 ∧
      (run_trace (build_cache 2 1) ⟨1, 1, 1, 0, 0, 0⟩
         [⟨.load, 0x10⟩, ⟨.load, 0x20⟩, ⟨.load, 0x10⟩]).2.evictions = 0) := by
  refine ⟨by decide, ?_⟩
  intro h
  have := h.1
  revert this
  decide

/-- Claim C5 (amended): with `s=1, E=1, b=1`, both 0x10 and 0x20 map to
set 0 with different tags, so the trace `L 10 / L 20 / L 10` is three
conflict misses with two evictions: final Stats `(0, 3, 2)`. -/
theorem claim_C5 :
    (run_trace (build_cache 2 1) ⟨1, 1, 1, 0, 0, 0⟩
       [⟨.load, 0x10⟩, ⟨.load, 0x20⟩, ⟨.load, 0x10⟩]).2.hits = 0 ∧
    (run_trace (build_cache 2 1) ⟨1, 1, 1, 0, 0, 0⟩
       [⟨.load, 0x10⟩, ⟨.load, 0x20⟩, ⟨.load, 0x10⟩]).2.misses = 3 ∧
    (run_trace (build_cache 2 1) ⟨1, 1, 1, 0, 0, 0⟩
       [⟨.load, 0x10⟩, ⟨.load, 0x20⟩, ⟨.load, 0x10⟩]).2.evictions = 2 ∧
    decompose_setIndex 1 1 0x10 = 0 ∧ decompose_setIndex 1 1 0x20 = 0 ∧
    decompose_tag 1 1 0x10 ≠ decompose_tag 1 1 0x20 := by
  refine ⟨by decide, by decide, by decide, by decide, by decide, by decide⟩

/-- Claim C7: for `s, b ≥ 1` (with `s + b ≤ 64`, the domain on which the C
shifts are defined) and any 64-bit address, the decomposition yields
`offset` = low `b` bits, `set_index` = next `s` bits with
`0 ≤ set_index < 2^s`, and `tag` = the remaining high `64 - s - b` bits;
the three parts recompose the address, with no error case. -/
theorem claim_C7 (s b address : Nat) (hs : 1 ≤ s) (hb : 1 ≤ b)
    (hsb : s + b ≤ 64) (haddr : address < 2 ^ 64) :
    decompose_setIndex s b address = address / 2 ^ b % 2 ^ s ∧
    decompose_setIndex s b address < 2 ^ s ∧
    decompose_tag s b address = address / 2 ^ (s + b) ∧
    decompose_tag s b address < 2 ^ (64 - (s + b)) ∧
    spec_offset b address = address % 2 ^ b ∧
    spec_offset b address < 2 ^ b ∧
    address = decompose_tag s b address * 2 ^ (s + b) +
      decompose_setIndex s b address * 2 ^ b + spec_offset b address := by
  have hidx := decompose_setIndex_eq s b address hsb
  refine ⟨hidx, ?_, rfl, decompose_tag_lt s b address haddr hsb, rfl, ?_, ?_⟩
  · rw [hidx]
    exact Nat.mod_lt _ (Nat.pos_pow_of_pos _ (by omega))
  · exact Nat.mod_lt _ (Nat.pos_pow_of_pos _ (by omega))
  · rw [hidx]
    exact decompose_recompose s b address

/-- Witness for C7 at a concrete input. -/
theorem claim_C7_witness :
    (1 ≤ 4 ∧ 1 ≤ 4 ∧ 4 + 4 ≤ 64 ∧ 3735928559 < 2 ^ 64) ∧
    (decompose_setIndex 4 4 3735928559 = 3735928559 / 2 ^ 4 % 2 ^ 4 ∧
     decompose_setIndex 4 4 3735928559 < 2 ^ 4 ∧
     decompose_tag 4 4 3735928559 = 3735928559 / 2 ^ (4 + 4) ∧
     decompose_tag 4 4 3735928559 < 2 ^ (64 - (4 + 4)) ∧
     spec_offset 4 3735928559 = 3735928559 % 2 ^ 4 ∧
     spec_offset 4 3735928559 < 2 ^ 4 ∧
     3735928559 = decompose_tag 4 4 3735928559 * 2 ^ (4 + 4) +
       decompose_setIndex 4 4 3735928559 * 2 ^ 4 + spec_offset 4 3735928559) :=
  ⟨⟨by decide, by decide, by decide, by decide⟩,
   claim_C7 4 4 3735928559 (by decide) (by decide) (by decide) (by decide)⟩

/-- Claim C2: a hit on the unique valid line holding the input tag bumps
exactly that line's recency by 1 and the `hits` counter by 1; every other
line, every validity bit, every tag, and the `misses` and `evictions`
counters are untouched. -/
theorem claim_C2 (set : CacheSet) (par : CacheParam) (tag i : Nat)
    (hi : i < set.length)
    (hvalid : (set.getD i defaultLine).valid = true)
    (htag : (set.getD i defaultLine).tag = tag)
    (hnd : noDupSet set) :
    simulate_set set par tag =
      (set.set i { set.getD i defaultLine with
                   access_count := (set.getD i defaultLine).access_count + 1 },
       { par with hits := par.hits + 1 }) := by
  have hp : isMatch tag (set.getD i defaultLine) = true := by
    unfold isMatch
    rw [hvalid, htag]
    simp
  exact simulate_set_hit set par tag i hi hp (noDup_unique_match set tag hnd i hi hp)

/-- Witness for C2 at a concrete input. -/
theorem claim_C2_witness :
    (0 < 2 ∧
     (([⟨true, 5, 7⟩, ⟨false, 0, 0⟩] : CacheSet).getD 0 defaultLine).valid = true ∧
     (([⟨true, 5, 7⟩, ⟨false, 0, 0⟩] : CacheSet).getD 0 defaultLine).tag = 7) ∧
    simulate_set [⟨true, 5, 7⟩, ⟨false, 0, 0⟩] ⟨1, 1, 2, 3, 4, 5⟩ 7 =
      ([⟨true, 6, 7⟩, ⟨false, 0, 0⟩], ⟨1, 1, 2, 4, 4, 5⟩) :=
  ⟨⟨by decide, by decide, by decide⟩,
   claim_C2 [⟨true, 5, 7⟩, ⟨false, 0, 0⟩] ⟨1, 1, 2, 3, 4, 5⟩ 7 0
     (by decide) (by decide) (by decide)
     (noDupSet_of_pairwise _ (by decide))⟩

/-- Claim C1: on a miss (no valid line in the set holds the input tag),
if some line is invalid the lowest-indexed invalid line is marked valid,
given the input tag, and given recency `max + 1` (only `misses` bumped);
if every line is valid, `evictions` is bumped and the victim is the line
with minimum recency (first-seen minimum, so ties break to the lowest
index), whose tag is overwritten and whose recency becomes the pre-update
maximum plus 1. -/
theorem claim_C1 (set : CacheSet) (par : CacheParam) (tag : Nat)
    (hne : set ≠ [])
    (hmiss : ∀ l ∈ set, ¬(l.valid = true ∧ l.tag = tag)) :
    ((∃ l ∈ set, l.valid = false) →
      get_empty_line set < set.length ∧
      (set.getD (get_empty_line set) defaultLine).valid = false ∧
      (∀ m < get_empty_line set, (set.getD m defaultLine).valid = true) ∧
      simulate_set set par tag =
        (set.set (get_empty_line set)
           { set.getD (get_empty_line set) defaultLine with
             valid := true, tag := tag,
             access_count := spec_maxRecency set + 1 },
         { par with misses := par.misses + 1 })) ∧
    ((∀ l ∈ set, l.valid = true) →
      spec_victimIdx set < set.length ∧
      (set.getD (spec_victimIdx set) defaultLine).access_count =
        spec_minRecency set ∧
      (∀ l ∈ set, spec_minRecency set ≤ l.access_count) ∧
      (∀ j < spec_victimIdx set,
        spec_minRecency set < (set.getD j defaultLine).access_count) ∧
      simulate_set set par tag =
        (set.set (spec_victimIdx set)
           { set.getD (spec_victimIdx set) defaultLine with
             tag := tag, access_count := spec_maxRecency set + 1 },
         { par with misses := par.misses + 1,
                    evictions := par.evictions + 1 })) := by
  have hmiss' : ∀ l ∈ set, isMatch tag l = false := (no_match_iff set tag).2 hmiss
  constructor
  · intro hinv
    have hnall : set.all (fun l => l.valid) = false := by
      obtain ⟨l, hl, hv⟩ := hinv
      cases hc : set.all (fun l => l.valid)
      · rfl
      · exfalso
        have := List.all_eq_true.1 hc l hl
        rw [hv] at this
        cases this
    obtain ⟨h1, h2, h3⟩ := get_empty_line_spec set hinv
    refine ⟨h1, h2, h3, ?_⟩
    rw [simulate_set_miss_fill set par tag hmiss' hnall]
    rfl
  · intro hall
    have hall' : set.all (fun l => l.valid) = true := by
      rw [List.all_eq_true]
      intro l hl
      simpa using hall l hl
    refine ⟨spec_victimIdx_lt set hne, spec_victimIdx_ac set hne,
      fun l hl => spec_minRecency_le set l hl, fun j hj => ?_, ?_⟩
    · exact spec_victimIdx_first set j hj
        (Nat.lt_trans hj (spec_victimIdx_lt set hne))
    · rw [simulate_set_miss_full set par tag hmiss' hall']
      rfl

/-- Witness for C1 at a concrete input (a set with one empty line and one
full set, exercised through the same statement). -/
theorem claim_C1_witness :
    (([⟨false, 0, 0⟩] : CacheSet) ≠ [] ∧
     ∀ l ∈ ([⟨false, 0, 0⟩] : CacheSet), ¬(l.valid = true ∧ l.tag = 9)) ∧
    (((∃ l ∈ ([⟨false, 0, 0⟩] : CacheSet), l.valid = false) →
      get_empty_line [⟨false, 0, 0⟩] < ([⟨false, 0, 0⟩] : CacheSet).length ∧
      (([⟨false, 0, 0⟩] : CacheSet).getD (get_empty_line [⟨false, 0, 0⟩])
        defaultLine).valid = false ∧
      (∀ m < get_empty_line [⟨false, 0, 0⟩],
        (([⟨false, 0, 0⟩] : CacheSet).getD m defaultLine).valid = true) ∧
      simulate_set [⟨false, 0, 0⟩] ⟨1, 1, 1, 0, 0, 0⟩ 9 =
        (([⟨false, 0, 0⟩] : CacheSet).set (get_empty_line [⟨false, 0, 0⟩])
           { ([⟨false, 0, 0⟩] : CacheSet).getD (get_empty_line [⟨false, 0, 0⟩])
               defaultLine with
             valid := true, tag := 9,
             access_count := spec_maxRecency [⟨false, 0, 0⟩] + 1 },
         { (⟨1, 1, 1, 0, 0, 0⟩ : CacheParam) with misses := 0 + 1 })) ∧
    ((∀ l ∈ ([⟨false, 0, 0⟩] : CacheSet), l.valid = true) →
      spec_victimIdx [⟨false, 0, 0⟩] < ([⟨false, 0, 0⟩] : CacheSet).length ∧
      (([⟨false, 0, 0⟩] : CacheSet).getD (spec_victimIdx [⟨false, 0, 0⟩])
        defaultLine).access_count = spec_minRecency [⟨false, 0, 0⟩] ∧
      (∀ l ∈ ([⟨false, 0, 0⟩] : CacheSet),
        spec_minRecency [⟨false, 0, 0⟩] ≤ l.access_count) ∧
      (∀ j < spec_victimIdx [⟨false, 0, 0⟩],
        spec_minRecency [⟨false, 0, 0⟩] <
          (([⟨false, 0, 0⟩] : CacheSet).getD j defaultLine).access_count) ∧
      simulate_set [⟨false, 0, 0⟩] ⟨1, 1, 1, 0, 0, 0⟩ 9 =
        (([⟨false, 0, 0⟩] : CacheSet).set (spec_victimIdx [⟨false, 0, 0⟩])
           { ([⟨false, 0, 0⟩] : CacheSet).getD (spec_victimIdx [⟨false, 0, 0⟩])
               defaultLine with
             tag := 9, access_count := spec_maxRecency [⟨false, 0, 0⟩] + 1 },
         { (⟨1, 1, 1, 0, 0, 0⟩ : CacheParam) with misses := 0 + 1,
                                                  evictions := 0 + 1 }))) :=
  ⟨⟨by decide, by decide⟩,
   claim_C1 [⟨false, 0, 0⟩] ⟨1, 1, 1, 0, 0, 0⟩ 9 (by decide) (by decide)⟩

lemma simulate_cache_snd_par (c' : CacheType) (par' par : CacheParam) (addr : Nat)
    (hs : par'.s = par.s) (hb : par'.b = par.b) :
    (simulate_cache c' par' addr).2 =
      (simulate_set (c'.getD (decompose_setIndex par.s par.b addr) []) par'
        (decompose_tag par.s par.b addr)).2 := by
  rw [simulate_cache_snd, hs, hb]

/-- Claim C3: a Modify record performs exactly two accesses to the same
address in sequence; the second is always a hit (the first access leaves
the line resident), so the combined outcome is hit+hit, or miss+hit, or
miss+hit with one eviction on the first access only — never two misses,
never two evictions. -/
theorem claim_C3 (c : CacheType) (par : CacheParam) (addr : Nat)
    (hnd : noDupCache c)
    (hidx : decompose_setIndex par.s par.b addr < c.length)
    (hne : c.getD (decompose_setIndex par.s par.b addr) [] ≠ []) :
    run_record (c, par) ⟨AccessKind.modify, addr⟩ =
      simulate_cache (simulate_cache c par addr).1
        (simulate_cache c par addr).2 addr ∧
    (simulate_cache (simulate_cache c par addr).1
        (simulate_cache c par addr).2 addr).2.hits =
      (simulate_cache c par addr).2.hits + 1 ∧
    (simulate_cache (simulate_cache c par addr).1
        (simulate_cache c par addr).2 addr).2.misses =
      (simulate_cache c par addr).2.misses ∧
    (simulate_cache (simulate_cache c par addr).1
        (simulate_cache c par addr).2 addr).2.evictions =
      (simulate_cache c par addr).2.evictions ∧
    (((simulate_cache c par addr).2.hits = par.hits + 1 ∧
      (simulate_cache c par addr).2.misses = par.misses ∧
      (simulate_cache c par addr).2.evictions = par.evictions) ∨
     ((simulate_cache c par addr).2.hits = par.hits ∧
      (simulate_cache c par addr).2.misses = par.misses + 1 ∧
      ((simulate_cache c par addr).2.evictions = par.evictions ∨
       (simulate_cache c par addr).2.evictions = par.evictions + 1))) := by
  have hs : (simulate_cache c par addr).2.s = par.s :=
    (simulate_set_geometry _ par _).1
  have hb : (simulate_cache c par addr).2.b = par.b :=
    (simulate_set_geometry _ par _).2.1
  have hq : (simulate_cache c par addr).1.getD
      (decompose_setIndex par.s par.b addr) [] =
      (simulate_set (c.getD (decompose_setIndex par.s par.b addr) []) par
        (decompose_tag par.s par.b addr)).1 := by
    rw [simulate_cache_fst]
    exact cache_getD_set_self c _ _ hidx
  obtain ⟨i, hi, hp⟩ := simulate_set_resident
    (c.getD (decompose_setIndex par.s par.b addr) []) par
    (decompose_tag par.s par.b addr) hne
  have hnd' : noDupSet (simulate_set
      (c.getD (decompose_setIndex par.s par.b addr) []) par
      (decompose_tag par.s par.b addr)).1 :=
    noDupSet_simulate_set _ par _ (cache_getD_noDup c hnd _)
  have hsnd2 : (simulate_cache (simulate_cache c par addr).1
      (simulate_cache c par addr).2 addr).2 =
      { (simulate_cache c par addr).2 with
        hits := (simulate_cache c par addr).2.hits + 1 } := by
    rw [simulate_cache_snd_par _ _ par addr hs hb, hq,
      simulate_set_hit _ _ _ i hi hp (noDup_unique_match _ _ hnd' i hi hp)]
  refine ⟨rfl, ?_, ?_, ?_, ?_⟩
  · rw [hsnd2]
  · rw [hsnd2]
  · rw [hsnd2]
  · rcases simulate_cache_stats c par addr hnd with h | h | h
    · left
      rw [h]
      exact ⟨rfl, rfl, rfl⟩
    · right
      rw [h]
      exact ⟨rfl, rfl, Or.inl rfl⟩
    · right
      rw [h]
      exact ⟨rfl, rfl, Or.inr rfl⟩

/-- Witness for C3 at a concrete input. -/
theorem claim_C3_witness :
    (decompose_setIndex 1 1 16 < (build_cache 2 1).length ∧
     (build_cache 2 1).getD (decompose_setIndex 1 1 16) [] ≠ []) ∧
    (run_record (build_cache 2 1, ⟨1, 1, 1, 0, 0, 0⟩) ⟨AccessKind.modify, 16⟩ =
      simulate_cache (simulate_cache (build_cache 2 1) ⟨1, 1, 1, 0, 0, 0⟩ 16).1
        (simulate_cache (build_cache 2 1) ⟨1, 1, 1, 0, 0, 0⟩ 16).2 16 ∧
    (simulate_cache (simulate_cache (build_cache 2 1) ⟨1, 1, 1, 0, 0, 0⟩ 16).1
        (simulate_cache (build_cache 2 1) ⟨1, 1, 1, 0, 0, 0⟩ 16).2 16).2.hits =
      (simulate_cache (build_cache 2 1) ⟨1, 1, 1, 0, 0, 0⟩ 16).2.hits + 1 ∧
    (simulate_cache (simulate_cache (build_cache 2 1) ⟨1, 1, 1, 0, 0, 0⟩ 16).1
        (simulate_cache (build_cache 2 1) ⟨1, 1, 1, 0, 0, 0⟩ 16).2 16).2.misses =
      (simulate_cache (build_cache 2 1) ⟨1, 1, 1, 0, 0, 0⟩ 16).2.misses ∧
    (simulate_cache (simulate_cache (build_cache 2 1) ⟨1, 1, 1, 0, 0, 0⟩ 16).1
        (simulate_cache (build_cache 2 1) ⟨1, 1, 1, 0, 0, 0⟩ 16).2 16).2.evictions =
      (simulate_cache (build_cache 2 1) ⟨1, 1, 1, 0, 0, 0⟩ 16).2.evictions ∧
    (((simulate_cache (build_cache 2 1) ⟨1, 1, 1, 0, 0, 0⟩ 16).2.hits = 0 + 1 ∧
      (simulate_cache (build_cache 2 1) ⟨1, 1, 1, 0, 0, 0⟩ 16).2.misses = 0 ∧
      (simulate_cache (build_cache 2 1) ⟨1, 1, 1, 0, 0, 0⟩ 16).2.evictions = 0) ∨
     ((simulate_cache (build_cache 2 1) ⟨1, 1, 1, 0, 0, 0⟩ 16).2.hits = 0 ∧
      (simulate_cache (build_cache 2 1) ⟨1, 1, 1, 0, 0, 0⟩ 16).2.misses = 0 + 1 ∧
      ((simulate_cache (build_cache 2 1) ⟨1, 1, 1, 0, 0, 0⟩ 16).2.evictions = 0 ∨
       (simulate_cache (build_cache 2 1) ⟨1, 1, 1, 0, 0, 0⟩ 16).2.evictions =
         0 + 1)))) :=
  ⟨⟨by decide, by decide⟩,
   claim_C3 (build_cache 2 1) ⟨1, 1, 1, 0, 0, 0⟩ 16 (noDupCache_build 2 1)
     (by decide) (by decide)⟩

/-- Claim C6: loading `E` pairwise-distinct tags, in order, into an
initially empty set produces `E` misses and no eviction, leaving line `i`
holding the `i`-th tag with recency `i + 1` (the `fillState`); the set is
then full, and a further access to a fresh tag `t` increments `evictions`
(and `misses`) and overwrites exactly line 0 — the line holding the
first-loaded, least-recently-touched tag, whose recency 1 is the set
minimum. -/
theorem claim_C6 (E : Nat) (tags : List Nat) (t : Nat) (par : CacheParam)
    (hE : 2 ≤ E) (hlen : tags.length = E) (hnd : tags.Nodup) (hnot : t ∉ tags) :
    tags.foldl (fun st x => simulate_set st.1 st.2 x)
      (List.replicate E defaultLine, par) =
      (fillState tags E, { par with misses := par.misses + E }) ∧
    (fillState tags E).all (fun l => l.valid) = true ∧
    (fillState tags E).getD 0 defaultLine = ⟨true, 1, tags.getD 0 0⟩ ∧
    spec_minRecency (fillState tags E) = 1 ∧
    (∀ l ∈ fillState tags E, 1 ≤ l.access_count) ∧
    simulate_set (fillState tags E) { par with misses := par.misses + E } t =
      ((fillState tags E).set 0 ⟨true, E + 1, t⟩,
       { par with misses := par.misses + E + 1,
                  evictions := par.evictions + 1 }) := by
  obtain ⟨t0, rest, rfl⟩ : ∃ t0 rest, tags = t0 :: rest := by
    cases tags with
    | nil =>
      exfalso
      rw [List.length_nil] at hlen
      omega
    | cons a l => exact ⟨a, l, rfl⟩
  have hfull : fillState (t0 :: rest) E = filledLines (t0 :: rest) 0 :=
    fillState_full_eq _ E hlen
  have hall : (fillState (t0 :: rest) E).all (fun l => l.valid) = true :=
    fillState_all_valid _ E (by omega)
  refine ⟨?_, hall, ?_, ?_, ?_, ?_⟩
  · have := fill_run E [] (t0 :: rest) par (by simpa using Nat.le_of_eq hlen)
      (by simpa using hnd)
    rw [hlen] at this
    exact this
  · rw [hfull]
    rfl
  · rw [hfull]
    exact spec_minRecency_filled_cons t0 rest
  · intro l hl
    rw [hfull] at hl
    exact Nat.le_trans (by omega) (filledLines_ac_ge _ 0 l hl)
  · rw [simulate_set_miss_full _ _ t (fillState_no_match _ E t hnot) hall]
    unfold updateLine
    have hvic : spec_victimIdx (fillState (t0 :: rest) E) = 0 := by
      rw [hfull]
      exact spec_victimIdx_filled_cons t0 rest
    have hget : (fillState (t0 :: rest) E).getD 0 defaultLine =
        ⟨true, 1, t0⟩ := by
      rw [hfull]
      rfl
    rw [hvic, hget, spec_maxRecency_fillState, hlen]

/-- Witness for C6 at a concrete input. -/
theorem claim_C6_witness :
    (2 ≤ 2 ∧ ([4, 8] : List Nat).length = 2 ∧ ([4, 8] : List Nat).Nodup ∧
     12 ∉ ([4, 8] : List Nat)) ∧
    (([4, 8] : List Nat).foldl (fun st x => simulate_set st.1 st.2 x)
        (List.replicate 2 defaultLine, ⟨1, 1, 2, 0, 0, 0⟩) =
        (fillState [4, 8] 2,
         { (⟨1, 1, 2, 0, 0, 0⟩ : CacheParam) with misses := 0 + 2 }) ∧
     (fillState [4, 8] 2).all (fun l => l.valid) = true ∧
     (fillState [4, 8] 2).getD 0 defaultLine =
       ⟨true, 1, ([4, 8] : List Nat).getD 0 0⟩ ∧
     spec_minRecency (fillState [4, 8] 2) = 1 ∧
     (∀ l ∈ fillState [4, 8] 2, 1 ≤ l.access_count) ∧
     simulate_set (fillState [4, 8] 2)
         { (⟨1, 1, 2, 0, 0, 0⟩ : CacheParam) with misses := 0 + 2 } 12 =
       ((fillState [4, 8] 2).set 0 ⟨true, 2 + 1, 12⟩,
        { (⟨1, 1, 2, 0, 0, 0⟩ : CacheParam) with misses := 0 + 2 + 1,
                                                 evictions := 0 + 1 })) :=
  ⟨⟨by decide, by decide, by decide, by decide⟩,
   claim_C6 2 [4, 8] 12 ⟨1, 1, 2, 0, 0, 0⟩ (by decide) (by decide) (by decide)
     (by decide)⟩
